import Mathlib

/-!
Verification development for the VerifiableCredentials crypto SDK core:
the JOSE JWE token protocol (`src/libs/protocol-jose/lib/jwe/JweToken.ts`),
the algorithm naming bridge (`src/libs/plugin/lib/CryptoHelpers.ts`) and the
deterministic pairwise key derivation (§4.3 of the design document).

Buffers are modelled as `List Nat` with every entry below 256; strings of the
JavaScript runtime are modelled as Lean `String`/`List Char`; `TSMap` ordered
headers are insertion-ordered association lists `List (String × String)`;
JavaScript `undefined` is modelled with `Option`; thrown exceptions are
modelled with `Except String`.
-/

namespace VcSdk

/-- Bytes of a Node `Buffer`: a list of naturals, each below 256. -/
abbrev Bytes := List Nat

/-- Predicate that a byte list is in range (every entry below 256). -/
def BytesWF (b : Bytes) : Prop := ∀ x ∈ b, x < 256

instance : DecidablePred BytesWF := fun b =>
  inferInstanceAs (Decidable (∀ x ∈ b, x < 256))

/-- The opening-brace character, written by code point to keep it out of literals. -/
def lbrace : Char := Char.ofNat 123

/-- The closing-brace character, written by code point. -/
def rbrace : Char := Char.ofNat 125

/-- The double-quote character. -/
def dquote : Char := Char.ofNat 34

/-- The backslash character. -/
def bslash : Char := Char.ofNat 92

/-- The single-quote character, used when rebuilding the error messages of the source. -/
def squote : Char := Char.ofNat 39

/-- Single-quote as a one-character string. -/
def sq : String := String.mk [squote]

/-! ## base64url (the `base64url` npm package used by `JweToken.ts`)

`base64url.encode` maps 3-byte groups to 4 characters of the URL-safe
alphabet without padding; `base64url.toBuffer` decodes, ignoring characters
outside the alphabet, as Node `Buffer.from(_, 'base64')` does. -/

/-- Character of the base64url alphabet for a 6-bit value. -/
def encB64Char (n : Nat) : Char :=
  if n < 26 then Char.ofNat (65 + n)
  else if n < 52 then Char.ofNat (97 + (n - 26))
  else if n < 62 then Char.ofNat (48 + (n - 52))
  else if n = 62 then Char.ofNat 45
  else Char.ofNat 95

/-- Six-bit value of a base64url character; 64 for characters outside the alphabet. -/
def decB64Char (c : Char) : Nat :=
  let v := c.toNat
  if 65 ≤ v ∧ v ≤ 90 then v - 65
  else if 97 ≤ v ∧ v ≤ 122 then v - 71
  else if 48 ≤ v ∧ v ≤ 57 then v + 4
  else if v = 45 then 62
  else if v = 95 then 63
  else 64

/-- Membership in the base64url alphabet. -/
def isB64 (c : Char) : Bool := decB64Char c < 64

/-- Encode bytes to base64url characters, three bytes to four characters, no padding. -/
def encB64 : Bytes → List Char
  | [] => []
  | [b0] => [encB64Char (b0 / 4), encB64Char (b0 % 4 * 16)]
  | [b0, b1] => [encB64Char (b0 / 4), encB64Char (b0 % 4 * 16 + b1 / 16),
      encB64Char (b1 % 16 * 4)]
  | b0 :: b1 :: b2 :: rest =>
      encB64Char (b0 / 4) :: encB64Char (b0 % 4 * 16 + b1 / 16) ::
      encB64Char (b1 % 16 * 4 + b2 / 64) :: encB64Char (b2 % 64) :: encB64 rest

/-- Decode base64url characters (already filtered to the alphabet) to bytes.
A dangling single character contributes no byte, as in Node. -/
def decB64Core : List Char → Bytes
  | [] => []
  | [_] => []
  | [c0, c1] => [decB64Char c0 * 4 + decB64Char c1 / 16]
  | [c0, c1, c2] => [decB64Char c0 * 4 + decB64Char c1 / 16,
      decB64Char c1 % 16 * 16 + decB64Char c2 / 4]
  | c0 :: c1 :: c2 :: c3 :: rest =>
      (decB64Char c0 * 4 + decB64Char c1 / 16) ::
      (decB64Char c1 % 16 * 16 + decB64Char c2 / 4) ::
      ((decB64Char c2 % 4 * 64 + decB64Char c3) :: decB64Core rest)

/-- Model of `base64url.toBuffer`: drop foreign characters, then decode. -/
def decB64 (cs : List Char) : Bytes := decB64Core (cs.filter isB64)

/-- Model of `base64url.encode` on a `Buffer`, producing a `String`. -/
def b64Encode (b : Bytes) : String := String.mk (encB64 b)

/-- Model of `base64url.toBuffer` on a `String`. -/
def b64Decode (s : String) : Bytes := decB64 s.data

theorem decB64Char_encB64Char : ∀ n < 64, decB64Char (encB64Char n) = n := by decide

theorem isB64_encB64Char : ∀ n < 64, isB64 (encB64Char n) = true := by decide

theorem encB64_mem_isB64 : ∀ b : Bytes, BytesWF b → ∀ c ∈ encB64 b, isB64 c = true := by
  intro b
  induction b using encB64.induct with
  | case1 => intro _ c hc; simp [encB64] at hc
  | case2 b0 =>
      intro hwf c hc
      have h0 : b0 < 256 := hwf b0 (by simp)
      simp [encB64] at hc
      rcases hc with h | h <;> subst h <;> exact isB64_encB64Char _ (by omega)
  | case3 b0 b1 =>
      intro hwf c hc
      have h0 : b0 < 256 := hwf b0 (by simp)
      have h1 : b1 < 256 := hwf b1 (by simp)
      simp [encB64] at hc
      rcases hc with h | h | h <;> subst h <;> exact isB64_encB64Char _ (by omega)
  | case4 b0 b1 b2 rest ih =>
      intro hwf c hc
      have h0 : b0 < 256 := hwf b0 (by simp)
      have h1 : b1 < 256 := hwf b1 (by simp)
      have h2 : b2 < 256 := hwf b2 (by simp)
      have hwf' : BytesWF rest := fun x hx => hwf x (by simp [hx])
      simp [encB64] at hc
      rcases hc with h | h | h | h | h
      · subst h; exact isB64_encB64Char _ (by omega)
      · subst h; exact isB64_encB64Char _ (by omega)
      · subst h; exact isB64_encB64Char _ (by omega)
      · subst h; exact isB64_encB64Char _ (by omega)
      · exact ih hwf' c h

/-- Round trip on the character level: decoding the encoding recovers the bytes. -/
theorem decB64Core_encB64 : ∀ b : Bytes, BytesWF b → decB64Core (encB64 b) = b := by
  intro b
  induction b using encB64.induct with
  | case1 => intro _; simp [encB64, decB64Core]
  | case2 b0 =>
      intro hwf
      have h0 : b0 < 256 := hwf b0 (by simp)
      have e0 := decB64Char_encB64Char (b0 / 4) (by omega)
      have e1 := decB64Char_encB64Char (b0 % 4 * 16) (by omega)
      simp only [encB64, decB64Core]
      rw [e0, e1]
      simp only [List.cons.injEq, and_true]
      omega
  | case3 b0 b1 =>
      intro hwf
      have h0 : b0 < 256 := hwf b0 (by simp)
      have h1 : b1 < 256 := hwf b1 (by simp)
      have e0 := decB64Char_encB64Char (b0 / 4) (by omega)
      have e1 := decB64Char_encB64Char (b0 % 4 * 16 + b1 / 16) (by omega)
      have e2 := decB64Char_encB64Char (b1 % 16 * 4) (by omega)
      simp only [encB64, decB64Core]
      rw [e0, e1, e2]
      simp only [List.cons.injEq, and_true]
      constructor <;> omega
  | case4 b0 b1 b2 rest ih =>
      intro hwf
      have h0 : b0 < 256 := hwf b0 (by simp)
      have h1 : b1 < 256 := hwf b1 (by simp)
      have h2 : b2 < 256 := hwf b2 (by simp)
      have hwf' : BytesWF rest := fun x hx => hwf x (by simp [hx])
      have e0 := decB64Char_encB64Char (b0 / 4) (by omega)
      have e1 := decB64Char_encB64Char (b0 % 4 * 16 + b1 / 16) (by omega)
      have e2 := decB64Char_encB64Char (b1 % 16 * 4 + b2 / 64) (by omega)
      have e3 := decB64Char_encB64Char (b2 % 64) (by omega)
      simp only [encB64, decB64Core]
      rw [e0, e1, e2, e3]
      simp only [List.cons.injEq]
      refine ⟨by omega, by omega, by omega, ih hwf'⟩

/-- Encoded characters survive the alphabet filter unchanged. -/
theorem filter_encB64 (b : Bytes) (h : BytesWF b) :
    (encB64 b).filter isB64 = encB64 b :=
  List.filter_eq_self.mpr (fun c hc => encB64_mem_isB64 b h c hc)

/-- Full round trip for the base64url model. -/
theorem decB64_encB64 (b : Bytes) (h : BytesWF b) : decB64 (encB64 b) = b := by
  unfold decB64
  rw [filter_encB64 b h, decB64Core_encB64 b h]

/-- String-level round trip: `toBuffer (encode b) = b`. -/
theorem b64Decode_b64Encode (b : Bytes) (h : BytesWF b) : b64Decode (b64Encode b) = b := by
  unfold b64Decode b64Encode
  exact decB64_encB64 b h

/-! ## Splitting on a separator character

This models the JavaScript `String.split(sep)` for a one-character separator,
used by `JweToken.deserialize` (dot split) and by the parsing model. -/

/-- Split a character list at every occurrence of `sep`. Never returns `[]`. -/
def splitSep (sep : Char) : List Char → List (List Char)
  | [] => [[]]
  | c :: t =>
      match splitSep sep t with
      | [] => [[]]
      | h :: r => if c = sep then [] :: h :: r else (c :: h) :: r

/-- Join character lists with a separator, the inverse of `splitSep`. -/
def joinSep (sep : Char) : List (List Char) → List Char
  | [] => []
  | [x] => x
  | x :: y :: r => x ++ sep :: joinSep sep (y :: r)

theorem splitSep_ne_nil (sep : Char) (l : List Char) : splitSep sep l ≠ [] := by
  cases l with
  | nil => simp [splitSep]
  | cons c t =>
      simp only [splitSep]
      cases h : splitSep sep t with
      | nil => simp
      | cons x r => by_cases hc : c = sep <;> simp [hc]

theorem splitSep_no_sep (sep : Char) (l : List Char) (h : sep ∉ l) :
    splitSep sep l = [l] := by
  induction l with
  | nil => rfl
  | cons c t ih =>
      have hc : c ≠ sep := fun hh => h (by simp [hh])
      have ht : sep ∉ t := fun hh => h (by simp [hh])
      simp only [splitSep, ih ht]
      simp [hc]

theorem splitSep_append (sep : Char) (a b : List Char) (h : sep ∉ a) :
    splitSep sep (a ++ sep :: b) = a :: splitSep sep b := by
  induction a with
  | nil =>
      simp only [List.nil_append, splitSep]
      rcases hb : splitSep sep b with _ | ⟨x, r⟩
      · exact absurd hb (splitSep_ne_nil sep b)
      · simp
  | cons c t ih =>
      have hc : c ≠ sep := fun hh => h (by simp [hh])
      have ht : sep ∉ t := fun hh => h (by simp [hh])
      show splitSep sep (c :: (t ++ sep :: b)) = (c :: t) :: splitSep sep b
      simp only [splitSep]
      cases hsp : splitSep sep (t ++ sep :: b) with
      | nil => exact absurd hsp (splitSep_ne_nil sep _)
      | cons x r =>
          rw [ih ht] at hsp
          cases hsp
          simp [hc]

/-- Splitting the join recovers the pieces when no piece contains the separator. -/
theorem splitSep_joinSep (sep : Char) (ps : List (List Char)) (hne : ps ≠ [])
    (h : ∀ p ∈ ps, sep ∉ p) : splitSep sep (joinSep sep ps) = ps := by
  induction ps with
  | nil => exact absurd rfl hne
  | cons x r ih =>
      cases r with
      | nil => exact splitSep_no_sep sep x (h x (by simp))
      | cons y r2 =>
          have hx : sep ∉ x := h x (by simp)
          simp only [joinSep]
          rw [splitSep_append sep x _ hx]
          rw [ih (by simp) (fun p hp => h p (by simp [hp]))]

/-- The number of pieces is the separator count plus one. -/
theorem splitSep_length (sep : Char) (l : List Char) :
    (splitSep sep l).length = l.count sep + 1 := by
  induction l with
  | nil => simp [splitSep]
  | cons c t ih =>
      simp only [splitSep]
      cases h : splitSep sep t with
      | nil => exact absurd h (splitSep_ne_nil sep t)
      | cons x r =>
          rw [h] at ih
          by_cases hc : c = sep
          · subst hc
            simp [List.count_cons] at ih ⊢
            omega
          · have hc2 : ¬ sep = c := fun hh => hc hh.symm
            simp [List.count_cons, hc, hc2] at ih ⊢
            omega

/-! ## Headers

`TSMap<string, string>` headers are insertion-ordered association lists. The
JSON text of a header (what `JSON.stringify(header.toJSON())` produces and
`TSMap.fromJSON(JSON.parse(text))` consumes) is modelled by `headerChars` and
`parseHeaderChars`; the model is faithful on headers whose keys and values
avoid the JSON metacharacters (quote, backslash, comma) — `HChars` below. -/

/-- Insertion-ordered string map, the model of `TSMap<string, string>`. -/
abbrev Header := List (String × String)

/-- The comma character. -/
def comma : Char := Char.ofNat 44

/-- The full-stop character used as the compact-serialization separator. -/
def dotc : Char := Char.ofNat 46

/-- The colon character. -/
def colonc : Char := Char.ofNat 58

/-- Wellformedness of one header string: printable ASCII avoiding the JSON
metacharacters and the compact-format separator. -/
def HChars (s : String) : Prop :=
  ∀ c ∈ s.data, c ≠ dquote ∧ c ≠ bslash ∧ c ≠ comma ∧ c ≠ dotc ∧ c.toNat < 128

instance : DecidablePred HChars := fun s =>
  inferInstanceAs (Decidable (∀ c ∈ s.data, _ ∧ _ ∧ _ ∧ _ ∧ _))

/-- Wellformedness of a header: every key and value satisfies `HChars`. -/
def HeaderWF (h : Header) : Prop := ∀ p ∈ h, HChars p.1 ∧ HChars p.2

instance : DecidablePred HeaderWF := fun h =>
  inferInstanceAs (Decidable (∀ p ∈ h, _ ∧ _))

/-- JSON text of one `"key":"value"` pair. -/
def headerPairChars (p : String × String) : List Char :=
  dquote :: p.1.data ++ dquote :: colonc :: dquote :: p.2.data ++ [dquote]

/-- JSON text of a header object, in insertion order, no whitespace — the
output of `JSON.stringify` on the map's plain-object view. -/
def headerChars (h : Header) : List Char :=
  lbrace :: joinSep comma (h.map headerPairChars) ++ [rbrace]

/-- Parse one `"key":"value"` pair back from its JSON text. -/
def parseHeaderPair (cs : List Char) : Option (String × String) :=
  match splitSep dquote cs with
  | [k0, k, c, v, v0] =>
      if k0 = [] ∧ c = [colonc] ∧ v0 = [] then some (String.mk k, String.mk v) else none
  | _ => none

/-- Parse a header object from its JSON text: model of
`new TSMap().fromJSON(JSON.parse(text))` on flat string-valued objects. -/
def parseHeaderChars (cs : List Char) : Option Header :=
  match cs with
  | [] => none
  | c :: rest =>
      if c = lbrace then
        match rest.getLast? with
        | some d =>
            if d = rbrace then
              let mid := rest.dropLast
              if mid = [] then some [] else (splitSep comma mid).mapM parseHeaderPair
            else none
        | none => none
      else none

theorem splitSep_cons_sep (sep : Char) (l : List Char) :
    splitSep sep (sep :: l) = [] :: splitSep sep l := by
  simp only [splitSep]
  cases h : splitSep sep l with
  | nil => exact absurd h (splitSep_ne_nil sep l)
  | cons x r => simp

theorem parseHeaderPair_headerPairChars (p : String × String)
    (hk : HChars p.1) (hv : HChars p.2) :
    parseHeaderPair (headerPairChars p) = some p := by
  have hkq : dquote ∉ p.1.data := fun hm => (hk _ hm).1 rfl
  have hvq : dquote ∉ p.2.data := fun hm => (hv _ hm).1 rfl
  unfold parseHeaderPair headerPairChars
  rw [show dquote :: p.1.data ++ dquote :: colonc :: dquote :: p.2.data ++ [dquote]
      = dquote :: (p.1.data ++ dquote :: (colonc :: dquote :: (p.2.data ++ dquote :: [])))
      by simp]
  rw [splitSep_cons_sep, splitSep_append _ _ _ hkq]
  rw [show colonc :: dquote :: (p.2.data ++ dquote :: []) =
      [colonc] ++ dquote :: (p.2.data ++ dquote :: []) by simp]
  rw [splitSep_append dquote [colonc] _ (by decide)]
  rw [splitSep_append _ _ _ hvq]
  simp [splitSep]

theorem joinSep_head_ne_nil (sep : Char) (x : List Char) (r : List (List Char))
    (hx : x ≠ []) : joinSep sep (x :: r) ≠ [] := by
  cases r with
  | nil => simpa [joinSep] using hx
  | cons y r2 => simp [joinSep]

/-- A wellformed pair's JSON text contains no comma. -/
theorem comma_not_mem_headerPairChars (pr : String × String)
    (h1 : HChars pr.1) (h2 : HChars pr.2) : comma ∉ headerPairChars pr := by
  intro hm
  have c1 : ¬ (comma = dquote) := by decide
  have c2 : ¬ (comma = colonc) := by decide
  unfold headerPairChars at hm
  simp only [List.mem_append, List.mem_cons, List.mem_singleton, List.not_mem_nil,
    c1, c2, false_or, or_false] at hm
  rcases hm with hm | hm
  · exact (h1 _ hm).2.2.1 rfl
  · exact (h2 _ hm).2.2.1 rfl

/-- Parsing the pair texts of a wellformed header recovers the header. -/
theorem mapM_parseHeaderPair (h : Header) (hwf : HeaderWF h) :
    (h.map headerPairChars).mapM parseHeaderPair = some h := by
  induction h with
  | nil => rfl
  | cons p t ih =>
      obtain ⟨h1, h2⟩ := hwf p (by simp)
      have ht := ih (fun x hx => hwf x (by simp [hx]))
      simp only [List.map_cons, List.mapM_cons, parseHeaderPair_headerPairChars p h1 h2, ht]
      rfl

/-- Header-codec round trip: parsing the JSON text of a wellformed header
returns the header itself, keys in order. -/
theorem parseHeaderChars_headerChars (h : Header) (hwf : HeaderWF h) :
    parseHeaderChars (headerChars h) = some h := by
  unfold parseHeaderChars headerChars
  simp only [List.cons_append, if_pos rfl]
  rw [List.getLast?_concat, List.dropLast_concat]
  simp only [if_pos rfl]
  cases h with
  | nil => simp [joinSep]
  | cons p t =>
      have hpieces : ∀ q ∈ (p :: t).map headerPairChars, comma ∉ q := by
        intro q hq
        simp only [List.mem_map] at hq
        obtain ⟨pr, hpr, rfl⟩ := hq
        obtain ⟨h1, h2⟩ := hwf pr hpr
        exact comma_not_mem_headerPairChars pr h1 h2
      have hne : joinSep comma ((p :: t).map headerPairChars) ≠ [] := by
        apply joinSep_head_ne_nil
        simp [headerPairChars]
      rw [if_neg hne]
      rw [splitSep_joinSep comma _ (by simp) hpieces]
      exact mapM_parseHeaderPair (p :: t) hwf

/-! ## JSON string-value escaping

`JSON.stringify` escapes quote and backslash inside string values;
`JSON.parse` reverses it. `escChars` and `parseJStr` model this for values
whose characters need no other escapes. `parseJStr` consumes a string body up
to its closing quote and returns the remaining input. -/

/-- Escape quote and backslash, as `JSON.stringify` does inside string values. -/
def escChars : List Char → List Char
  | [] => []
  | c :: t => if c = dquote ∨ c = bslash then bslash :: c :: escChars t else c :: escChars t

/-- State machine behind `parseJStr`: when the flag is set the previous
character was an unconsumed backslash. -/
def parseJStrSM : Bool → List Char → Option (List Char × List Char)
  | _, [] => none
  | true, d :: rest => (parseJStrSM false rest).map (fun pr => (d :: pr.1, pr.2))
  | false, c :: rest =>
      if c = dquote then some ([], rest)
      else if c = bslash then parseJStrSM true rest
      else (parseJStrSM false rest).map (fun pr => (c :: pr.1, pr.2))

/-- Parse a JSON string body up to an unescaped closing quote, returning the
body (unescaped) and the input after the quote. -/
def parseJStr (cs : List Char) : Option (List Char × List Char) := parseJStrSM false cs

/-- Round trip for JSON string bodies: parsing the escaped text followed by a
closing quote yields the original characters and the rest of the input. -/
theorem parseJStr_escChars (s : List Char) (r : List Char) :
    parseJStr (escChars s ++ dquote :: r) = some (s, r) := by
  unfold parseJStr
  induction s with
  | nil =>
      simp [escChars, parseJStrSM]
  | cons c t ih =>
      by_cases hc : c = dquote ∨ c = bslash
      · simp only [escChars, if_pos hc, List.cons_append, parseJStrSM, ih]
        rfl
      · push_neg at hc
        simp only [escChars, if_neg (by tauto : ¬(c = dquote ∨ c = bslash)),
          List.cons_append, parseJStrSM, if_neg hc.1, if_neg hc.2, ih]
        rfl

/-- Escaping is the identity on quote-and-backslash-free text. -/
theorem escChars_eq_self (s : List Char) (h : ∀ c ∈ s, c ≠ dquote ∧ c ≠ bslash) :
    escChars s = s := by
  induction s with
  | nil => rfl
  | cons c t ih =>
      have hc := h c (by simp)
      simp only [escChars, if_neg (by tauto : ¬(c = dquote ∨ c = bslash))]
      rw [ih (fun x hx => h x (by simp [hx]))]

/-- Characters of escaped text are the original characters or the backslash. -/
theorem mem_escChars (s : List Char) (c : Char) (h : c ∈ escChars s) :
    c ∈ s ∨ c = bslash := by
  induction s with
  | nil => simp [escChars] at h
  | cons d t ih =>
      simp only [escChars] at h
      split at h
      · simp at h
        rcases h with h | h | h
        · right; exact h
        · left; simp [h]
        · rcases ih h with h2 | h2
          · left; simp [h2]
          · right; exact h2
      · simp at h
        rcases h with h | h
        · left; simp [h]
        · rcases ih h with h2 | h2
          · left; simp [h2]
          · right; exact h2

/-! ## ASCII string/byte conversion for base64url of header text -/

/-- Bytes of a string, faithful for ASCII content (`Buffer.from(s, 'utf8')`). -/
def strBytes (s : String) : Bytes := s.data.map Char.toNat

/-- String of bytes, faithful for ASCII content. -/
def strOfBytes (b : Bytes) : String := String.mk (b.map Char.ofNat)

theorem strOfBytes_strBytes (s : String) : strOfBytes (strBytes s) = s := by
  unfold strOfBytes strBytes
  rw [List.map_map]
  have : (Char.ofNat ∘ Char.toNat) = id := funext Char.ofNat_toNat
  rw [this, List.map_id]

theorem strBytes_wf (s : String) (h : ∀ c ∈ s.data, c.toNat < 128) :
    BytesWF (strBytes s) := by
  intro x hx
  simp only [strBytes, List.mem_map] at hx
  obtain ⟨c, hc, rfl⟩ := hx
  exact lt_trans (h c hc) (by omega)

/-! ## JWE token model (`src/libs/protocol-jose/lib/jwe/JweToken.ts`)

Fields that JavaScript may leave `undefined` are `Option`; the class
initializers give every field a present empty value, reproduced by the
record defaults. `protected` is a Lean keyword, so the field is named
`protected_`. -/

/-- Model of `JweRecipient`: per-recipient header and wrapped content key.
Both fields start `undefined` in the source class. -/
structure JweRecipient where
  header : Option Header := none
  encrypted_key : Option Bytes := none
deriving DecidableEq

/-- Model of the `JweToken` class fields. Defaults are the class initializers:
fresh empty maps for the headers, empty buffers, an empty recipients array and
the General JSON format. -/
structure JweToken where
  protected_ : Option Header := some []
  unprotected : Option Header := some []
  iv : Option Bytes := some []
  aad : Option Bytes := some []
  ciphertext : Option Bytes := some []
  tag : Option Bytes := some []
  recipients : Option (List JweRecipient) := some []
  format : String := "JweGeneralJson"
deriving DecidableEq

/-- JavaScript truthiness of an optional string: present and non-empty. -/
def strTruthy : Option String → Bool
  | some s => s ≠ ""
  | none => false

/-- Modelled from the spec: `JoseHelpers.headerHasElements` (the `JoseHelpers`
module is not among the provided sources) — a header participates in
serialization exactly when it is defined and has at least one entry
("Headers with no entries are omitted from output", §4.5). -/
def headerHasElements : Option Header → Bool
  | some h => h ≠ []
  | none => false

/-- Modelled from the spec: `JoseHelpers.encodeHeader` — the canonical JSON
text of the ordered header, base64url-encoded when the second argument is
true ("base64url(protected-header)", §4.5), plain JSON text otherwise. -/
def encodeHeaderStr (h : Header) (b64 : Bool) : String :=
  if b64 then b64Encode (strBytes (String.mk (headerChars h))) else String.mk (headerChars h)

/-- Model of `JweToken.setProtected` on a string: base64url-decode, then
`JSON.parse` into an ordered map; a parse failure is a thrown `SyntaxError`. -/
def setProtectedStr (s : String) : Except String Header :=
  match parseHeaderChars (strOfBytes (b64Decode s)).data with
  | some h => .ok h
  | none => .error "SyntaxError: unexpected token in JSON"

/-- Model of `JweToken.setUnprotected` on a string: `JSON.parse` directly
(no base64url step); a parse failure is a thrown `SyntaxError`. -/
def setUnprotectedStr (s : String) : Except String Header :=
  match parseHeaderChars s.data with
  | some h => .ok h
  | none => .error "SyntaxError: unexpected token in JSON"

/-- Decode a mandatory base64url field: `base64url.toBuffer(undefined)`
throws a `TypeError` in the source paths that do not test the field first. -/
def fieldB64 : Option String → Except String Bytes
  | some s => .ok (b64Decode s)
  | none => .error "TypeError: argument must be a string"

/-- Require a byte field for serialization: `base64url.encode(undefined)`
throws a `TypeError`. -/
def reqBytes : Option Bytes → Except String Bytes
  | some b => .ok b
  | none => .error "TypeError: argument must be a buffer"

/-! ### `isValidToken` (`JweToken.ts` lines 322-350)

The source tests `!this.ciphertext` and friends: a `Buffer` or `TSMap`
object is truthy even when empty, so only `undefined` fields fail these
tests; the single length check is on the recipients array. -/

/-- The per-recipient loop of `isValidToken`, carrying the index used in the
failure reason. -/
def checkRecipients (protPresent : Bool) : List JweRecipient → Nat → Bool × String
  | [], _ => (true, "")
  | r :: rest, inx =>
      if r.encrypted_key.isNone then
        (false, "recipient " ++ toString inx ++ " is missing encrypted_key")
      else if ¬protPresent ∧ r.header.isNone then
        (false, "recipient " ++ toString inx ++ " is missing header and protected is also missing")
      else checkRecipients protPresent rest (inx + 1)

/-- Model of `JweToken.isValidToken`: the decode-status record
`{result, reason}`. -/
def isValidToken (t : JweToken) : Bool × String :=
  match t.ciphertext with
  | none => (false, "missing ciphertext")
  | some _ =>
      match t.iv with
      | none => (false, "missing iv")
      | some _ =>
          match t.recipients with
          | none => (false, "missing recipients")
          | some rs =>
              if rs.length = 0 then (false, "recipients array is empty")
              else checkRecipients t.protected_.isSome rs 0

/-! ### Parsed JSON view

`JSON.parse` output is only ever inspected through the fields named below,
so the parse result is modelled as a record of those fields. -/

/-- One entry of a parsed `recipients` array. -/
structure ParsedRecipient where
  encrypted_key : Option String := none
  header : Option String := none
deriving DecidableEq

/-- The fields of a parsed JSON object that `setGeneralParts` and
`setFlatParts` read. -/
structure ParsedJson where
  recipients : Option (List ParsedRecipient) := none
  encrypted_key : Option String := none
  aad : Option String := none
  iv : Option String := none
  ciphertext : Option String := none
  tag : Option String := none
  protected_ : Option String := none
  unprotected : Option String := none
  header : Option String := none
deriving DecidableEq

/-- The per-recipient body of the `setGeneralParts` loop (lines 247-254):
decode the encrypted key, decode the header when present and truthy. -/
def decodeGeneralRecip (pr : ParsedRecipient) : Except String JweRecipient := do
  let ek ← fieldB64 pr.encrypted_key
  match pr.header with
  | some hs =>
      if hs ≠ "" then do
        let hh ← setUnprotectedStr hs
        pure ({ header := some hh, encrypted_key := some ek } : JweRecipient)
      else pure ({ header := none, encrypted_key := some ek } : JweRecipient)
  | none => pure ({ header := none, encrypted_key := some ek } : JweRecipient)

/-- Model of `JweToken.setGeneralParts` (`JweToken.ts` lines 233-264),
threading the token object being mutated and returning the decode status.
The literal `e30` comparison on the unprotected header is source line 242. -/
def setGeneralParts (t0 : JweToken) (content : ParsedJson) :
    Except String ((Bool × String) × JweToken) := do
  match content.recipients with
  | none => .ok ((false, "missing recipients"), t0)
  | some recips => do
      let ct ← fieldB64 content.ciphertext
      let aad ← fieldB64 content.aad
      let iv ← fieldB64 content.iv
      let t1 : JweToken := { t0 with ciphertext := some ct, aad := some aad, iv := some iv }
      let t2 ← match content.protected_ with
        | some s =>
            if s ≠ "" then do
              let h ← setProtectedStr s
              pure { t1 with protected_ := some h }
            else pure t1
        | none => pure t1
      let t3 ← match content.unprotected with
        | some s =>
            if s ≠ "" ∧ s ≠ "e30" then do
              let h ← setUnprotectedStr s
              pure { t2 with unprotected := some h }
            else pure t2
        | none => pure t2
      let tag ← fieldB64 content.tag
      let rs ← recips.mapM decodeGeneralRecip
      let t4 : JweToken := { t3 with tag := some tag, recipients := some rs }
      .ok (isValidToken t4, t4)

/-- Model of `JweToken.setFlatParts` (`JweToken.ts` lines 271-317): mandatory
ciphertext, encrypted_key and iv (tested for truthiness before decoding),
optional aad and headers, a single recipient. -/
def setFlatParts (t0 : JweToken) (content : ParsedJson) :
    Except String ((Bool × String) × JweToken) := do
  match content.ciphertext, strTruthy content.ciphertext with
  | some cts, true =>
      let t1 : JweToken := { t0 with ciphertext := some (b64Decode cts) }
      match content.encrypted_key, strTruthy content.encrypted_key with
      | some eks, true =>
          let rEk : Bytes := b64Decode eks
          match content.iv, strTruthy content.iv with
          | some ivs, true =>
              let t2 : JweToken := { t1 with iv := some (b64Decode ivs) }
              let t3 : JweToken := match content.aad, strTruthy content.aad with
                | some aads, true => { t2 with aad := some (b64Decode aads) }
                | _, _ => t2
              let t4 ← match content.protected_, strTruthy content.protected_ with
                | some ps, true => do
                    let h ← setProtectedStr ps
                    pure { t3 with protected_ := some h }
                | _, _ => pure t3
              let t5 ← match content.unprotected, strTruthy content.unprotected with
                | some us, true => do
                    let h ← setUnprotectedStr us
                    pure { t4 with unprotected := some h }
                | _, _ => pure t4
              let rHdr ← match content.header, strTruthy content.header with
                | some hs, true => do
                    let h ← setUnprotectedStr hs
                    pure (some h)
                | _, _ => pure (none : Option Header)
              let t6 : JweToken := { t5 with
                recipients := some [{ header := rHdr, encrypted_key := some rEk }] }
              .ok (isValidToken t6, t6)
          | _, _ => .ok ((false, "missing iv"), t1)
      | _, _ => .ok ((false, "missing encrypted_key"), t1)
  | _, _ => .ok ((false, "missing ciphertext"), t0)

/-- Compact-format branch of `deserialize` (`JweToken.ts` lines 187-197):
parts are protected header, encrypted key, iv, ciphertext, tag; the aad is
the decoded first part. -/
def compactFromParts (p0 p1 p2 p3 p4 : List Char) : Except String JweToken := do
  let prot ← setProtectedStr (String.mk p0)
  .ok { (({} : JweToken)) with
    protected_ := some prot,
    recipients := some [{ header := none, encrypted_key := some (decB64 p1) }],
    ciphertext := some (decB64 p3),
    iv := some (decB64 p2),
    tag := some (decB64 p4),
    aad := some (decB64 p0) }

/-- Model of `JweToken.deserialize` (`JweToken.ts` lines 181-226),
parameterized by the JSON parser (`JSON.parse` viewed through the fields the
code reads): a five-part dot split is Compact; otherwise parse JSON, try the
General shape, fall back to the Flat shape, and fail only after both. -/
def deserializeWith (pj : List Char → Option ParsedJson) (token : String) :
    Except String JweToken :=
  let parts := splitSep dotc token.data
  if parts.length = 5 then
    compactFromParts (parts.getD 0 []) (parts.getD 1 []) (parts.getD 2 [])
      (parts.getD 3 []) (parts.getD 4 [])
  else
      match pj token.data with
      | none => .error "The presented object is not deserializable and is no compact format."
      | some content =>
          match setGeneralParts {} content with
          | .error e => .error e
          | .ok (st1, t1) =>
              if st1.1 then .ok t1
              else
                match setFlatParts t1 content with
                | .error e => .error e
                | .ok (st2, t2) =>
                    if st2.1 then .ok t2
                    else .error "The content does not represent a valid jwe token"

/-! ### Serializers (`JweToken.ts` lines 84-173)

The serializers build a plain object and `JSON.stringify` it; here the JSON
text is built directly, with `JSON.stringify`'s insertion order and string
escaping. -/

/-- The opening-bracket character. -/
def lbrack : Char := Char.ofNat 91

/-- The closing-bracket character. -/
def rbrack : Char := Char.ofNat 93

/-- JSON text of an object key followed by the colon. -/
def jsonNameChars (n : String) : List Char := dquote :: n.data ++ dquote :: [colonc]

/-- JSON text of a string-valued field, value escaped as `JSON.stringify` does. -/
def jsonStrField (n v : String) : List Char :=
  jsonNameChars n ++ dquote :: escChars v.data ++ [dquote]

/-- JSON text of one entry of the `recipients` array. -/
def recipObjChars (ek : String) (hdr : Option String) : List Char :=
  lbrace :: jsonStrField "encrypted_key" ek ++
    (match hdr with | some h => comma :: jsonStrField "header" h | none => []) ++ [rbrace]

/-- Require the recipients array: reading `.length` of `undefined` throws. -/
def reqRecips : Option (List JweRecipient) → Except String (List JweRecipient)
  | some rs => .ok rs
  | none => .error "TypeError: cannot read recipients"

/-- The per-recipient body of the `serializeJweGeneralJson` loop (lines
120-129): base64url-encode the key, render the header when non-empty. -/
def renderJweRecipient (r : JweRecipient) : Except String (List Char) := do
  let ek ← reqBytes r.encrypted_key
  .ok (recipObjChars (b64Encode ek)
    (if headerHasElements r.header then some (encodeHeaderStr (r.header.getD []) false)
     else none))

/-- The General JSON object text, given the rendered recipient objects, the
four base64url field values and the optional header field values. -/
def generalTextChars (rts : List (List Char)) (aadS ivS ctS tagS : String)
    (proS unpS : Option String) : List Char :=
  lbrace :: jsonNameChars "recipients" ++ lbrack :: joinSep comma rts ++ rbrack ::
  comma :: jsonStrField "aad" aadS ++
  comma :: jsonStrField "iv" ivS ++
  comma :: jsonStrField "ciphertext" ctS ++
  comma :: jsonStrField "tag" tagS ++
  (match proS with | some s => comma :: jsonStrField "protected" s | none => []) ++
  (match unpS with | some s => comma :: jsonStrField "unprotected" s | none => []) ++
  [rbrace]

/-- Model of `JweToken.serializeJweGeneralJson` (lines 105-132): field order
recipients, aad, iv, ciphertext, tag, then protected and unprotected when
non-empty; the unprotected and per-recipient headers are plain JSON text,
the protected header is base64url-encoded. -/
def serializeJweGeneralJson (t : JweToken) : Except String (List Char) := do
  let aad ← reqBytes t.aad
  let iv ← reqBytes t.iv
  let ct ← reqBytes t.ciphertext
  let tag ← reqBytes t.tag
  let proS : Option String :=
    if headerHasElements t.protected_ then
      some (encodeHeaderStr (t.protected_.getD []) true)
    else none
  let unpS : Option String :=
    if headerHasElements t.unprotected then
      some (encodeHeaderStr (t.unprotected.getD []) false)
    else none
  let rs ← reqRecips t.recipients
  let rts ← rs.mapM renderJweRecipient
  .ok (generalTextChars rts (b64Encode aad) (b64Encode iv) (b64Encode ct) (b64Encode tag)
       proS unpS)

/-- Model of `JweToken.serializeJweFlatJson` (lines 138-157): single
recipient inlined; note line 150 base64url-encodes the unprotected header
(no `false` argument), unlike the recipient header on line 153. -/
def serializeJweFlatJson (t : JweToken) : Except String (List Char) := do
  match t.recipients with
  | none => .error "TypeError: cannot read recipients"
  | some [] => .error "TypeError: cannot read properties of undefined"
  | some (r0 :: _) => do
      let ek ← reqBytes r0.encrypted_key
      let aad ← reqBytes t.aad
      let iv ← reqBytes t.iv
      let ct ← reqBytes t.ciphertext
      let tag ← reqBytes t.tag
      .ok (lbrace :: jsonStrField "encrypted_key" (b64Encode ek) ++
           comma :: jsonStrField "aad" (b64Encode aad) ++
           comma :: jsonStrField "iv" (b64Encode iv) ++
           comma :: jsonStrField "ciphertext" (b64Encode ct) ++
           comma :: jsonStrField "tag" (b64Encode tag) ++
           (if headerHasElements t.protected_ then
              comma :: jsonStrField "protected" (encodeHeaderStr (t.protected_.getD []) true)
            else []) ++
           (if headerHasElements t.unprotected then
              comma :: jsonStrField "unprotected" (encodeHeaderStr (t.unprotected.getD []) true)
            else []) ++
           (if headerHasElements r0.header then
              comma :: jsonStrField "header" (encodeHeaderStr (r0.header.getD []) false)
            else []) ++ [rbrace])

/-- Model of `JweToken.serializeJweCompact` (lines 163-173): five dot-joined
fields from the first recipient; no check on the number of recipients. -/
def serializeJweCompact (t : JweToken) : Except String (List Char) := do
  let ep : String :=
    if headerHasElements t.protected_ then encodeHeaderStr (t.protected_.getD []) true else ""
  match t.recipients with
  | none => .error "TypeError: cannot read recipients"
  | some [] => .error "TypeError: cannot read properties of undefined"
  | some (r0 :: _) => do
      let ek ← reqBytes r0.encrypted_key
      let iv ← reqBytes t.iv
      let ct ← reqBytes t.ciphertext
      let tag ← reqBytes t.tag
      .ok (ep.data ++ dotc :: (b64Encode ek).data ++ dotc :: (b64Encode iv).data ++
           dotc :: (b64Encode ct).data ++ dotc :: (b64Encode tag).data)

/-- Model of `JweToken.serialize` (lines 84-99): dispatch on the requested
format, defaulting to the token's stored format; the failure message
interpolates `this.format`, the stored format, not the argument. -/
def JweToken.serialize (t : JweToken) (fmt : Option String) : Except String String :=
  let format := fmt.getD t.format
  if format = "JweGeneralJson" then (serializeJweGeneralJson t).map String.mk
  else if format = "JweCompactJson" then (serializeJweCompact t).map String.mk
  else if format = "JweFlatJson" then (serializeJweFlatJson t).map String.mk
  else .error ("The format " ++ sq ++ t.format ++ sq ++ " is not supported")

/-! ### Concrete JSON parsing for the two object shapes

`JSON.parse` is external; the deserializer only consumes the two object
layouts the serializers emit, and `parseJsonModel` parses exactly those,
agreeing with `JSON.parse` on them. -/

/-- Strip an expected literal off the front of the input. -/
def stripPre : List Char → List Char → Option (List Char)
  | [], r => some r
  | c :: lt, d :: r => if c = d then stripPre lt r else none
  | _ :: _, [] => none

/-- Parse `"name":"value"`, returning the unescaped value and the rest. -/
def parseStrField (name : String) (cs : List Char) : Option (String × List Char) := do
  let r1 ← stripPre (jsonNameChars name) cs
  let r2 ← stripPre [dquote] r1
  let (v, r3) ← parseJStr r2
  pure (String.mk v, r3)

/-- Parse one recipients-array object. -/
def parseRecipObj (cs : List Char) : Option (ParsedRecipient × List Char) := do
  let r1 ← stripPre [lbrace] cs
  let (ek, r2) ← parseStrField "encrypted_key" r1
  match stripPre [comma] r2 with
  | some r3 => do
      let (h, r4) ← parseStrField "header" r3
      let r5 ← stripPre [rbrace] r4
      pure (({ encrypted_key := some ek, header := some h } : ParsedRecipient), r5)
  | none => do
      let r5 ← stripPre [rbrace] r2
      pure (({ encrypted_key := some ek, header := none } : ParsedRecipient), r5)

/-- Parse a non-empty comma-separated recipients list, fuel-bounded. -/
def parseRecipsAux : Nat → List Char → Option (List ParsedRecipient × List Char)
  | 0, _ => none
  | fuel + 1, cs => do
      let (r, rest) ← parseRecipObj cs
      match stripPre [comma] rest with
      | some rest2 => do
          let (rs, rest3) ← parseRecipsAux fuel rest2
          pure (r :: rs, rest3)
      | none => pure ([r], rest)

/-- Parse an optional `,"name":"value"` continuation; on no match the input
is left untouched. -/
def parseOptField (name : String) (cs : List Char) : Option String × List Char :=
  match stripPre [comma] cs with
  | some r =>
      match parseStrField name r with
      | some (v, r2) => (some v, r2)
      | none => (none, cs)
  | none => (none, cs)

/-- Parse the recipients array body: empty, or a comma-separated object list
closed by the bracket. -/
def parseRecipsBlock (cs : List Char) : Option (List ParsedRecipient × List Char) :=
  match stripPre [rbrack] cs with
  | some r => some (([] : List ParsedRecipient), r)
  | none => do
      let (rs, rr) ← parseRecipsAux (cs.length + 1) cs
      let rr2 ← stripPre [rbrack] rr
      pure (rs, rr2)

/-- Parse the General JSON object shape emitted by
`serializeJweGeneralJson`. -/
def parseGeneralChars (cs : List Char) : Option (ParsedJson × List Char) := do
  let r1 ← stripPre (lbrace :: jsonNameChars "recipients" ++ [lbrack]) cs
  let (rs, r2) ← parseRecipsBlock r1
  let r3 ← stripPre [comma] r2
  let (aad, r4) ← parseStrField "aad" r3
  let r5 ← stripPre [comma] r4
  let (iv, r6) ← parseStrField "iv" r5
  let r7 ← stripPre [comma] r6
  let (ct, r8) ← parseStrField "ciphertext" r7
  let r9 ← stripPre [comma] r8
  let (tag, r10) ← parseStrField "tag" r9
  let (pro, r11) := parseOptField "protected" r10
  let (unp, r12) := parseOptField "unprotected" r11
  let r13 ← stripPre [rbrace] r12
  pure (({ recipients := some rs, aad := some aad, iv := some iv, ciphertext := some ct,
           tag := some tag, protected_ := pro, unprotected := unp } : ParsedJson), r13)

/-- Parse the Flat JSON object shape emitted by `serializeJweFlatJson`. -/
def parseFlatChars (cs : List Char) : Option (ParsedJson × List Char) := do
  let r1 ← stripPre [lbrace] cs
  let (ek, r2) ← parseStrField "encrypted_key" r1
  let r3 ← stripPre [comma] r2
  let (aad, r4) ← parseStrField "aad" r3
  let r5 ← stripPre [comma] r4
  let (iv, r6) ← parseStrField "iv" r5
  let r7 ← stripPre [comma] r6
  let (ct, r8) ← parseStrField "ciphertext" r7
  let r9 ← stripPre [comma] r8
  let (tag, r10) ← parseStrField "tag" r9
  let (pro, r11) := parseOptField "protected" r10
  let (unp, r12) := parseOptField "unprotected" r11
  let (hdr, r13) := parseOptField "header" r12
  let r14 ← stripPre [rbrace] r13
  pure (({ encrypted_key := some ek, aad := some aad, iv := some iv, ciphertext := some ct,
           tag := some tag, protected_ := pro, unprotected := unp,
           header := hdr } : ParsedJson), r14)

/-- Concrete JSON-parse model: accept either serializer shape, whole input. -/
def parseJsonModel (cs : List Char) : Option ParsedJson :=
  match parseGeneralChars cs with
  | some (pj, []) => some pj
  | _ =>
      match parseFlatChars cs with
      | some (pj, []) => some pj
      | _ => none

/-- The string-level deserializer with the concrete JSON parse model:
model of the public `JweToken.deserialize`. -/
def JweToken.deserialize (token : String) : Except String JweToken :=
  deserializeWith parseJsonModel token

/-! ### Round-trip lemmas for the General JSON pipeline -/

theorem stripPre_append (lit r : List Char) : stripPre lit (lit ++ r) = some r := by
  induction lit with
  | nil => rfl
  | cons c t ih => simp [stripPre, ih]

theorem stripPre_cons (c : Char) (r : List Char) : stripPre [c] (c :: r) = some r := by
  simp [stripPre]

theorem stripPre_cons_ne (c d : Char) (r : List Char) (h : c ≠ d) :
    stripPre [c] (d :: r) = none := by
  simp [stripPre, h]

theorem parseStrField_jsonStrField (n v : String) (rest : List Char) :
    parseStrField n (jsonStrField n v ++ rest) = some (v, rest) := by
  unfold parseStrField jsonStrField
  simp only [List.append_assoc, List.cons_append, List.nil_append, Option.bind_eq_bind]
  rw [stripPre_append]
  simp only [Option.some_bind]
  rw [stripPre_cons]
  simp only [Option.some_bind]
  rw [parseJStr_escChars]
  rfl

theorem parseStrField_mismatch (v : String) (rest : List Char) :
    parseStrField "protected" (jsonStrField "unprotected" v ++ rest) = none := by
  simp [parseStrField, jsonStrField, jsonNameChars, stripPre, dquote, bslash, colonc]

/-- Rendered text of a recipients-array entry from its field values. -/
def renderRecip (p : String × Option String) : List Char := recipObjChars p.1 p.2

/-- Parsed view of a recipients-array entry from its field values. -/
def toParsedRecip (p : String × Option String) : ParsedRecipient :=
  { encrypted_key := some p.1, header := p.2 }

theorem parseRecipObj_renderRecip (p : String × Option String) (rest : List Char) :
    parseRecipObj (renderRecip p ++ rest) = some (toParsedRecip p, rest) := by
  obtain ⟨ekS, hdrS⟩ := p
  cases hdrS with
  | none =>
      unfold renderRecip recipObjChars parseRecipObj toParsedRecip
      simp only [List.append_assoc, List.cons_append, List.nil_append, List.append_nil,
        Option.bind_eq_bind]
      rw [stripPre_cons]
      simp only [Option.some_bind]
      rw [parseStrField_jsonStrField]
      simp only [Option.some_bind]
      rw [stripPre_cons_ne comma rbrace _ (by decide)]
      rw [stripPre_cons]
      rfl
  | some h =>
      unfold renderRecip recipObjChars parseRecipObj toParsedRecip
      simp only [List.append_assoc, List.cons_append, List.nil_append, Option.bind_eq_bind]
      rw [stripPre_cons]
      simp only [Option.some_bind]
      rw [parseStrField_jsonStrField]
      simp only [Option.some_bind]
      rw [stripPre_cons]
      simp only []
      rw [parseStrField_jsonStrField]
      simp only [Option.some_bind]
      rw [stripPre_cons]
      rfl

theorem renderRecip_ne_nil (p : String × Option String) : renderRecip p ≠ [] := by
  obtain ⟨ekS, hdrS⟩ := p
  cases hdrS <;> simp [renderRecip, recipObjChars]

theorem length_le_joinSep_renderRecip (ps : List (String × Option String)) :
    ps.length ≤ (joinSep comma (ps.map renderRecip)).length + 1 := by
  induction ps with
  | nil => simp
  | cons p t ih =>
      cases t with
      | nil => simp
      | cons q t2 =>
          simp only [List.map_cons, joinSep, List.length_cons, List.length_append] at ih ⊢
          have hp : 0 < (renderRecip p).length :=
            List.length_pos.mpr (renderRecip_ne_nil p)
          omega

theorem parseRecipsAux_rt (ps : List (String × Option String)) (hne : ps ≠ [])
    (rest2 : List Char) :
    ∀ fuel, ps.length ≤ fuel →
    parseRecipsAux fuel (joinSep comma (ps.map renderRecip) ++ rbrack :: rest2) =
      some (ps.map toParsedRecip, rbrack :: rest2) := by
  induction ps with
  | nil => exact absurd rfl hne
  | cons p t ih =>
      intro fuel hfuel
      cases fuel with
      | zero => simp at hfuel
      | succ f =>
          cases t with
          | nil =>
              simp only [List.map_cons, List.map_nil, joinSep, parseRecipsAux,
                Option.bind_eq_bind]
              rw [parseRecipObj_renderRecip]
              simp only [Option.some_bind]
              rw [stripPre_cons_ne comma rbrack _ (by decide)]
              rfl
          | cons q t2 =>
              simp only [List.map_cons, joinSep, parseRecipsAux, Option.bind_eq_bind]
              rw [show (renderRecip p ++ comma :: joinSep comma (renderRecip q :: t2.map renderRecip)) ++ rbrack :: rest2
                  = renderRecip p ++ (comma :: (joinSep comma (renderRecip q :: t2.map renderRecip) ++ rbrack :: rest2)) by simp]
              rw [parseRecipObj_renderRecip]
              simp only [Option.some_bind]
              rw [stripPre_cons]
              simp only []
              have := ih (by simp) f (by simp at hfuel ⊢; omega)
              simp only [List.map_cons] at this
              rw [this]
              rfl

theorem parseOptField_present (n v : String) (rest : List Char) :
    parseOptField n (comma :: (jsonStrField n v ++ rest)) = (some v, rest) := by
  unfold parseOptField
  rw [stripPre_cons]
  simp only []
  rw [parseStrField_jsonStrField]

theorem parseOptField_head_ne (n : String) (c : Char) (rest : List Char) (h : comma ≠ c) :
    parseOptField n (c :: rest) = (none, c :: rest) := by
  unfold parseOptField
  rw [stripPre_cons_ne comma c _ h]

theorem parseOptField_mismatch (v : String) (rest : List Char) :
    parseOptField "protected" (comma :: (jsonStrField "unprotected" v ++ rest)) =
      (none, comma :: (jsonStrField "unprotected" v ++ rest)) := by
  unfold parseOptField
  rw [stripPre_cons]
  simp only []
  rw [parseStrField_mismatch]

theorem renderRecip_head (p : String × Option String) :
    ∃ tl, renderRecip p = lbrace :: tl := by
  obtain ⟨ekS, hdrS⟩ := p
  cases hdrS <;> exact ⟨_, rfl⟩

theorem joinSep_renderRecip_head (p : String × Option String)
    (t : List (String × Option String)) :
    ∃ tl, joinSep comma ((p :: t).map renderRecip) = lbrace :: tl := by
  obtain ⟨x, hx⟩ := renderRecip_head p
  cases t with
  | nil => exact ⟨x, by simp [joinSep, hx]⟩
  | cons q t2 =>
      refine ⟨x ++ comma :: joinSep comma ((q :: t2).map renderRecip), ?_⟩
      simp [joinSep, hx]

/-- Parsing the rendered recipients array (closed by the bracket) recovers
the entries, consuming through the bracket. -/
theorem parseRecipsBlock_rt (ps : List (String × Option String)) (rem : List Char) :
    parseRecipsBlock (joinSep comma (ps.map renderRecip) ++ rbrack :: rem) =
      some (ps.map toParsedRecip, rem) := by
  unfold parseRecipsBlock
  cases ps with
  | nil =>
      simp only [List.map_nil, joinSep, List.nil_append]
      rw [stripPre_cons]
  | cons p t =>
      obtain ⟨tl, htl⟩ := joinSep_renderRecip_head p t
      have hhead : stripPre [rbrack]
          (joinSep comma ((p :: t).map renderRecip) ++ rbrack :: rem) = none := by
        rw [htl]
        simp only [List.cons_append]
        exact stripPre_cons_ne rbrack lbrace _ (by decide)
      rw [hhead]
      have hfuel : (p :: t).length ≤
          (joinSep comma ((p :: t).map renderRecip) ++ rbrack :: rem).length + 1 := by
        have h1 := length_le_joinSep_renderRecip (p :: t)
        simp only [List.length_append, List.length_cons] at h1 ⊢
        omega
      rw [parseRecipsAux_rt (p :: t) (by simp) rem _ hfuel]
      simp only [Option.bind_eq_bind, Option.some_bind]
      rw [stripPre_cons]
      rfl

/-- Parsing the General JSON text produced from components recovers exactly
the component view, consuming the whole input. -/
theorem parseGeneralChars_generalText (ps : List (String × Option String))
    (aadS ivS ctS tagS : String) (proS unpS : Option String) :
    parseGeneralChars (generalTextChars (ps.map renderRecip) aadS ivS ctS tagS proS unpS) =
      some (({ recipients := some (ps.map toParsedRecip), aad := some aadS, iv := some ivS,
               ciphertext := some ctS, tag := some tagS, protected_ := proS,
               unprotected := unpS } : ParsedJson), []) := by
  unfold parseGeneralChars generalTextChars
  simp only [List.append_assoc, List.cons_append, List.nil_append, Option.bind_eq_bind]
  have hpre : ∀ X : List Char,
      lbrace :: (jsonNameChars "recipients" ++ lbrack ::
          (joinSep comma (ps.map renderRecip) ++ X)) =
        (lbrace :: (jsonNameChars "recipients" ++ [lbrack])) ++
          (joinSep comma (ps.map renderRecip) ++ X) := by
    intro X; simp
  rw [hpre, stripPre_append]
  simp only [Option.some_bind]
  rw [parseRecipsBlock_rt]
  simp only [Option.some_bind]
  rw [stripPre_cons]
  simp only [Option.some_bind]
  rw [parseStrField_jsonStrField]
  simp only [Option.some_bind]
  rw [stripPre_cons]
  simp only [Option.some_bind]
  rw [parseStrField_jsonStrField]
  simp only [Option.some_bind]
  rw [stripPre_cons]
  simp only [Option.some_bind]
  rw [parseStrField_jsonStrField]
  simp only [Option.some_bind]
  rw [stripPre_cons]
  simp only [Option.some_bind]
  rw [parseStrField_jsonStrField]
  simp only [Option.some_bind]
  cases proS with
  | some sp =>
      simp only [List.append_assoc, List.cons_append]
      rw [parseOptField_present]
      cases unpS with
      | some su =>
          simp only [List.append_assoc, List.cons_append]
          rw [parseOptField_present]
          rw [stripPre_cons]
          rfl
      | none =>
          simp only [List.nil_append]
          rw [parseOptField_head_ne _ rbrace _ (by decide)]
          rw [stripPre_cons]
          rfl
  | none =>
      simp only [List.nil_append]
      cases unpS with
      | some su =>
          simp only [List.append_assoc, List.cons_append]
          rw [parseOptField_mismatch]
          rw [parseOptField_present]
          rw [stripPre_cons]
          rfl
      | none =>
          simp only [List.nil_append]
          rw [parseOptField_head_ne _ rbrace _ (by decide)]
          rw [parseOptField_head_ne _ rbrace _ (by decide)]
          rw [stripPre_cons]
          rfl

/-! ### Character-set and wellformedness lemmas for the round trip -/

theorem mem_joinSep (sep : Char) (ps : List (List Char)) (c : Char)
    (h : c ∈ joinSep sep ps) : c = sep ∨ ∃ p ∈ ps, c ∈ p := by
  induction ps with
  | nil => simp [joinSep] at h
  | cons x r ih =>
      cases r with
      | nil =>
          right
          exact ⟨x, by simp, by simpa [joinSep] using h⟩
      | cons y r2 =>
          simp only [joinSep, List.mem_append, List.mem_cons] at h
          rcases h with h | h | h
          · right; exact ⟨x, by simp, h⟩
          · left; exact h
          · rcases ih (by simpa [joinSep] using h) with h2 | ⟨p, hp, hc⟩
            · left; exact h2
            · right; exact ⟨p, by simp [List.mem_cons] at hp ⊢; tauto, hc⟩

theorem mem_headerPairChars (pr : String × String) (c : Char)
    (h : c ∈ headerPairChars pr) :
    c = dquote ∨ c = colonc ∨ c ∈ pr.1.data ∨ c ∈ pr.2.data := by
  unfold headerPairChars at h
  simp only [List.cons_append, List.mem_cons, List.mem_append, List.mem_singleton] at h
  tauto

theorem mem_headerChars (h : Header) (c : Char) (hm : c ∈ headerChars h) :
    c = lbrace ∨ c = rbrace ∨ c = dquote ∨ c = colonc ∨ c = comma ∨
      ∃ p ∈ h, c ∈ p.1.data ∨ c ∈ p.2.data := by
  unfold headerChars at hm
  simp only [List.cons_append, List.mem_cons, List.mem_append, List.mem_singleton] at hm
  rcases hm with hm | hm | hm
  · left; exact hm
  · rcases mem_joinSep comma _ c hm with hc | ⟨piece, hpiece, hcp⟩
    · tauto
    · simp only [List.mem_map] at hpiece
      obtain ⟨pr, hpr, rfl⟩ := hpiece
      rcases mem_headerPairChars pr c hcp with h1 | h1 | h1 | h1
      · tauto
      · tauto
      · exact Or.inr (Or.inr (Or.inr (Or.inr (Or.inr ⟨pr, hpr, Or.inl h1⟩))))
      · exact Or.inr (Or.inr (Or.inr (Or.inr (Or.inr ⟨pr, hpr, Or.inr h1⟩))))
  · tauto

theorem headerChars_ascii (h : Header) (hwf : HeaderWF h) :
    ∀ c ∈ headerChars h, c.toNat < 128 := by
  intro c hc
  rcases mem_headerChars h c hc with h1 | h1 | h1 | h1 | h1 | ⟨p, hp, h1⟩
  · subst h1; decide
  · subst h1; decide
  · subst h1; decide
  · subst h1; decide
  · subst h1; decide
  · obtain ⟨hk, hv⟩ := hwf p hp
    rcases h1 with h1 | h1
    · exact (hk c h1).2.2.2.2
    · exact (hv c h1).2.2.2.2

theorem dotc_not_mem_headerChars (h : Header) (hwf : HeaderWF h) :
    dotc ∉ headerChars h := by
  intro hc
  rcases mem_headerChars h dotc hc with h1 | h1 | h1 | h1 | h1 | ⟨p, hp, h1⟩
  · exact absurd h1 (by decide)
  · exact absurd h1 (by decide)
  · exact absurd h1 (by decide)
  · exact absurd h1 (by decide)
  · exact absurd h1 (by decide)
  · obtain ⟨hk, hv⟩ := hwf p hp
    rcases h1 with h1 | h1
    · exact (hk dotc h1).2.2.2.1 rfl
    · exact (hv dotc h1).2.2.2.1 rfl

theorem headerText_bytesWF (h : Header) (hwf : HeaderWF h) :
    BytesWF (strBytes (String.mk (headerChars h))) := by
  apply strBytes_wf
  intro c hc
  exact headerChars_ascii h hwf c hc

theorem dotc_not_mem_b64 (b : Bytes) (hwf : BytesWF b) : dotc ∉ (b64Encode b).data := by
  intro hc
  have := encB64_mem_isB64 b hwf dotc hc
  exact absurd this (by decide)

theorem dotc_not_mem_jsonStrField (n v : String) (hn : dotc ∉ n.data)
    (hv : dotc ∉ v.data) : dotc ∉ jsonStrField n v := by
  intro hc
  have c1 : ¬ (dotc = dquote) := by decide
  have c2 : ¬ (dotc = colonc) := by decide
  unfold jsonStrField jsonNameChars at hc
  simp only [List.cons_append, List.append_assoc, List.mem_cons, List.mem_append,
    List.mem_singleton, List.not_mem_nil, c1, c2, false_or, or_false] at hc
  rcases hc with hc | hc
  · exact hn hc
  · rcases mem_escChars v.data dotc hc with hc2 | hc2
    · exact hv hc2
    · exact absurd hc2 (by decide)

theorem strMk_data (l : List Char) : (String.mk l).data = l := rfl

/-- The rendered protected header (base64url of JSON text) is never empty. -/
theorem encB64_ne_nil (b : Bytes) (hb : b ≠ []) : encB64 b ≠ [] := by
  cases b with
  | nil => exact absurd rfl hb
  | cons b0 t =>
      cases t with
      | nil => simp [encB64]
      | cons b1 t2 => cases t2 <;> simp [encB64]

theorem headerChars_ne_nil (h : Header) : headerChars h ≠ [] := by
  simp [headerChars]

theorem headerText_ne_empty (h : Header) : String.mk (headerChars h) ≠ "" := by
  intro hc
  have : headerChars h = ([] : List Char) := congrArg String.data hc
  exact headerChars_ne_nil h this

theorem headerText_ne_e30 (h : Header) : String.mk (headerChars h) ≠ "e30" := by
  intro hc
  have hd : headerChars h = "e30".data := congrArg String.data hc
  unfold headerChars at hd
  have : lbrace = Char.ofNat 101 := by
    have := congrArg (fun l => l.headD lbrace) hd
    simpa using this
  exact absurd this (by decide)

theorem encHeaderTrue_ne_empty (h : Header) : encodeHeaderStr h true ≠ "" := by
  unfold encodeHeaderStr
  simp only [if_pos rfl]
  intro hc
  have hd : encB64 (strBytes (String.mk (headerChars h))) = ([] : List Char) :=
    congrArg String.data hc
  apply encB64_ne_nil _ _ hd
  simp only [strBytes, strMk_data, ne_eq, List.map_eq_nil_iff]
  exact headerChars_ne_nil h

/-- The recipients check of `isValidToken` passes when the protected header
object is present and every recipient has an encrypted key. -/
theorem checkRecipients_true (rs : List JweRecipient) (i : Nat)
    (h : ∀ r ∈ rs, r.encrypted_key.isSome) : checkRecipients true rs i = (true, "") := by
  induction rs generalizing i with
  | nil => rfl
  | cons r t ih =>
      have hr := h r (by simp)
      simp only [checkRecipients, Option.isNone_iff_eq_none]
      rw [if_neg (by cases hre : r.encrypted_key with
        | none => rw [hre] at hr; simp at hr
        | some k => simp)]
      rw [if_neg (by simp)]
      exact ih (i + 1) (fun r hrm => h r (by simp [hrm]))

/-! ### Token wellformedness for the General JSON round trip -/

/-- Lift a predicate over `Option`, false at `none`. -/
def OptPred {α : Type} (P : α → Prop) : Option α → Prop
  | some a => P a
  | none => False

instance {α : Type} (P : α → Prop) [DecidablePred P] : DecidablePred (OptPred P) :=
  fun o => by cases o with
    | none => exact isFalse (fun h => h)
    | some a => exact inferInstanceAs (Decidable (P a))

theorem OptPred_elim {α : Type} {P : α → Prop} {o : Option α} (h : OptPred P o) :
    ∃ a, o = some a ∧ P a := by
  cases o with
  | none => exact absurd h (fun h => h)
  | some a => exact ⟨a, rfl, h⟩

/-- Wellformedness of one recipient for the round trip: the encrypted key is
present with in-range bytes, the header is absent or non-empty and
wellformed. -/
def RecipWF (r : JweRecipient) : Prop :=
  OptPred BytesWF r.encrypted_key ∧
    (r.header = none ∨ OptPred (fun hh => hh ≠ [] ∧ HeaderWF hh) r.header)

instance : DecidablePred RecipWF := fun _ =>
  inferInstanceAs (Decidable (_ ∧ (_ ∨ _)))

/-- Wellformedness of a token for the General JSON round trip: all fields
present, bytes in range, headers wellformed, at least one recipient. -/
def TokenWF (t : JweToken) : Prop :=
  OptPred HeaderWF t.protected_ ∧ OptPred HeaderWF t.unprotected ∧
  OptPred BytesWF t.iv ∧ OptPred BytesWF t.aad ∧ OptPred BytesWF t.ciphertext ∧
  OptPred BytesWF t.tag ∧
  OptPred (fun rs => rs ≠ [] ∧ ∀ r ∈ rs, RecipWF r) t.recipients

instance : DecidablePred TokenWF := fun _ =>
  inferInstanceAs (Decidable (_ ∧ _ ∧ _ ∧ _ ∧ _ ∧ _ ∧ _))

/-- The string field values a recipient contributes to the General JSON. -/
def recipStrings (r : JweRecipient) : String × Option String :=
  (b64Encode (r.encrypted_key.getD []),
   if headerHasElements r.header then some (encodeHeaderStr (r.header.getD []) false)
   else none)

theorem encodeHeaderStr_false (h : Header) :
    encodeHeaderStr h false = String.mk (headerChars h) := rfl

theorem ok_bind {ε α β : Type} (a : α) (f : α → Except ε β) :
    (Except.ok a : Except ε α) >>= f = f a := rfl

theorem pureE_bind {ε α β : Type} (a : α) (f : α → Except ε β) :
    (pure a : Except ε α) >>= f = f a := rfl

theorem not_mem_append {α : Type} {c : α} {a b : List α} (ha : c ∉ a) (hb : c ∉ b) :
    c ∉ a ++ b := by
  simp only [List.mem_append]
  tauto

theorem not_mem_cons {α : Type} {c d : α} {a : List α} (hd : c ≠ d) (ha : c ∉ a) :
    c ∉ d :: a := by
  simp only [List.mem_cons]
  tauto

theorem setProtectedStr_encodeHeader (p : Header) (hw : HeaderWF p) :
    setProtectedStr (encodeHeaderStr p true) = .ok p := by
  have h1 : encodeHeaderStr p true = b64Encode (strBytes (String.mk (headerChars p))) := rfl
  rw [h1]
  unfold setProtectedStr
  rw [b64Decode_b64Encode _ (headerText_bytesWF p hw), strOfBytes_strBytes, strMk_data,
    parseHeaderChars_headerChars p hw]

theorem setUnprotectedStr_headerText (u : Header) (hw : HeaderWF u) :
    setUnprotectedStr (String.mk (headerChars u)) = .ok u := by
  unfold setUnprotectedStr
  rw [strMk_data, parseHeaderChars_headerChars u hw]

theorem renderJweRecipient_ok (r : JweRecipient) (hw : RecipWF r) :
    renderJweRecipient r = .ok (renderRecip (recipStrings r)) := by
  obtain ⟨k, hk, hkw⟩ := OptPred_elim hw.1
  unfold renderJweRecipient renderRecip recipStrings
  rw [hk]
  rfl

theorem mapM_renderJweRecipient (rs : List JweRecipient) (h : ∀ r ∈ rs, RecipWF r) :
    rs.mapM renderJweRecipient = .ok ((rs.map recipStrings).map renderRecip) := by
  induction rs with
  | nil => rfl
  | cons r t ih =>
      have hr := renderJweRecipient_ok r (h r (by simp))
      have ht := ih (fun x hx => h x (by simp [hx]))
      simp only [List.mapM_cons, hr, ht, List.map_cons]
      rfl

theorem decodeGeneralRecip_ok (r : JweRecipient) (hw : RecipWF r) :
    decodeGeneralRecip (toParsedRecip (recipStrings r)) = .ok r := by
  obtain ⟨k, hk, hkw⟩ := OptPred_elim hw.1
  rcases hw.2 with hh | hh
  · have harg : toParsedRecip (recipStrings r) =
        { encrypted_key := some (b64Encode k), header := none } := by
      unfold toParsedRecip recipStrings
      rw [hk, hh]
      rfl
    rw [harg]
    unfold decodeGeneralRecip
    simp only [fieldB64]
    rw [b64Decode_b64Encode k hkw]
    have hr2 : r = { header := none, encrypted_key := some k } := by
      cases r; simp_all
    rw [hr2]
    rfl
  · obtain ⟨hh2, hhdr, hne, hhw⟩ := OptPred_elim hh
    have harg : toParsedRecip (recipStrings r) =
        { encrypted_key := some (b64Encode k),
          header := some (String.mk (headerChars hh2)) } := by
      unfold toParsedRecip recipStrings
      rw [hk, hhdr]
      simp [headerHasElements, hne, encodeHeaderStr_false]
    rw [harg]
    unfold decodeGeneralRecip
    simp only [fieldB64]
    rw [b64Decode_b64Encode k hkw]
    rw [ok_bind]
    rw [if_pos (headerText_ne_empty hh2)]
    rw [setUnprotectedStr_headerText hh2 hhw]
    have hr2 : r = { header := some hh2, encrypted_key := some k } := by
      cases r; simp_all
    rw [hr2]
    rfl

theorem mapM_decodeGeneralRecip (rs : List JweRecipient) (h : ∀ r ∈ rs, RecipWF r) :
    ((rs.map recipStrings).map toParsedRecip).mapM decodeGeneralRecip = .ok rs := by
  induction rs with
  | nil => rfl
  | cons r t ih =>
      have hr := decodeGeneralRecip_ok r (h r (by simp))
      have ht := ih (fun x hx => h x (by simp [hx]))
      simp only [List.map_cons, List.mapM_cons, hr, ht]
      rfl

theorem dotc_not_mem_recipObjChars (ekS : String) (hdrS : Option String)
    (he : dotc ∉ ekS.data) (hh : ∀ s, hdrS = some s → dotc ∉ s.data) :
    dotc ∉ recipObjChars ekS hdrS := by
  unfold recipObjChars
  refine not_mem_append (not_mem_append ?_ ?_) ?_
  · exact not_mem_cons (by decide) (dotc_not_mem_jsonStrField "encrypted_key" ekS (by decide) he)
  · cases hdrS with
    | none => simp
    | some s =>
        exact not_mem_cons (by decide) (dotc_not_mem_jsonStrField "header" s (by decide) (hh s rfl))
  · simp only [List.mem_singleton]
    decide

theorem dotc_not_mem_generalText (rts : List (List Char)) (hrts : ∀ q ∈ rts, dotc ∉ q)
    (aadS ivS ctS tagS : String) (ha : dotc ∉ aadS.data) (hi : dotc ∉ ivS.data)
    (hc : dotc ∉ ctS.data) (ht : dotc ∉ tagS.data) (proS unpS : Option String)
    (hp : ∀ s, proS = some s → dotc ∉ s.data) (hu : ∀ s, unpS = some s → dotc ∉ s.data) :
    dotc ∉ generalTextChars rts aadS ivS ctS tagS proS unpS := by
  unfold generalTextChars
  refine not_mem_append (not_mem_append (not_mem_append (not_mem_append (not_mem_append
    (not_mem_append (not_mem_append (not_mem_append ?_ ?_) ?_) ?_) ?_) ?_) ?_) ?_) ?_
  · decide
  · refine not_mem_cons (by decide) ?_
    intro hm
    rcases mem_joinSep comma rts dotc hm with hs | ⟨q, hq, hqc⟩
    · exact absurd hs (by decide)
    · exact hrts q hq hqc
  · exact not_mem_cons (by decide) (not_mem_cons (by decide)
      (dotc_not_mem_jsonStrField "aad" aadS (by decide) ha))
  · exact not_mem_cons (by decide) (dotc_not_mem_jsonStrField "iv" ivS (by decide) hi)
  · exact not_mem_cons (by decide) (dotc_not_mem_jsonStrField "ciphertext" ctS (by decide) hc)
  · exact not_mem_cons (by decide) (dotc_not_mem_jsonStrField "tag" tagS (by decide) ht)
  · cases proS with
    | none => simp
    | some s =>
        exact not_mem_cons (by decide)
          (dotc_not_mem_jsonStrField "protected" s (by decide) (hp s rfl))
  · cases unpS with
    | none => simp
    | some s =>
        exact not_mem_cons (by decide)
          (dotc_not_mem_jsonStrField "unprotected" s (by decide) (hu s rfl))
  · simp only [List.mem_singleton]
    decide

theorem serializeJweGeneralJson_eval (t : JweToken)
    (p u : Header) (ivb aadb ctb tagb : Bytes) (rs : List JweRecipient)
    (hp : t.protected_ = some p) (hu : t.unprotected = some u)
    (hiv : t.iv = some ivb) (haad : t.aad = some aadb)
    (hct : t.ciphertext = some ctb) (htag : t.tag = some tagb)
    (hrs : t.recipients = some rs) (hrsw : ∀ r ∈ rs, RecipWF r) :
    serializeJweGeneralJson t = .ok (generalTextChars ((rs.map recipStrings).map renderRecip)
      (b64Encode aadb) (b64Encode ivb) (b64Encode ctb) (b64Encode tagb)
      (if headerHasElements (some p) then some (encodeHeaderStr p true) else none)
      (if headerHasElements (some u) then some (encodeHeaderStr u false) else none)) := by
  unfold serializeJweGeneralJson
  rw [haad, hiv, hct, htag, hrs, hp, hu]
  simp only [reqBytes, reqRecips, ok_bind]
  rw [mapM_renderJweRecipient rs hrsw]
  rw [ok_bind]
  simp only [Option.getD_some]

theorem setGeneralParts_rt (p u : Header) (hpw : HeaderWF p) (huw : HeaderWF u)
    (ivb aadb ctb tagb : Bytes) (hivw : BytesWF ivb) (haadw : BytesWF aadb)
    (hctw : BytesWF ctb) (htagw : BytesWF tagb)
    (rs : List JweRecipient) (hrsne : rs ≠ []) (hrsw : ∀ r ∈ rs, RecipWF r) :
    setGeneralParts {}
      ({ recipients := some ((rs.map recipStrings).map toParsedRecip),
         aad := some (b64Encode aadb), iv := some (b64Encode ivb),
         ciphertext := some (b64Encode ctb), tag := some (b64Encode tagb),
         protected_ :=
           if headerHasElements (some p) then some (encodeHeaderStr p true) else none,
         unprotected :=
           if headerHasElements (some u) then some (encodeHeaderStr u false) else none } :
        ParsedJson) =
      .ok ((true, ""),
        { protected_ := some p, unprotected := some u, iv := some ivb,
          aad := some aadb, ciphertext := some ctb, tag := some tagb,
          recipients := some rs }) := by
  have hlen : ¬ (rs.length = 0) := by
    intro hz
    exact hrsne (List.length_eq_zero.mp hz)
  have hkeys : ∀ r ∈ rs, r.encrypted_key.isSome := by
    intro r hr
    obtain ⟨k, hk, _⟩ := OptPred_elim (hrsw r hr).1
    simp [hk]
  have hvalid : ∀ tp, checkRecipients true rs 0 = tp → tp = (true, "") := by
    intro tp htp
    rw [checkRecipients_true rs 0 hkeys] at htp
    exact htp.symm
  unfold setGeneralParts
  simp only [fieldB64, ok_bind, b64Decode_b64Encode ivb hivw, b64Decode_b64Encode aadb haadw,
    b64Decode_b64Encode ctb hctw, b64Decode_b64Encode tagb htagw]
  by_cases hpz : p = []
  · by_cases huz : u = []
    · subst hpz; subst huz
      rw [show (if headerHasElements (some ([] : Header)) then some (encodeHeaderStr [] true)
          else none) = (none : Option String) from rfl]
      rw [show (if headerHasElements (some ([] : Header)) then some (encodeHeaderStr [] false)
          else none) = (none : Option String) from rfl]
      simp only [ok_bind, pureE_bind]
      rw [mapM_decodeGeneralRecip rs hrsw]
      simp only [ok_bind, pureE_bind]
      simp only [isValidToken, Option.isSome_some]
      rw [if_neg hlen, checkRecipients_true rs 0 hkeys]
    · subst hpz
      rw [show (if headerHasElements (some ([] : Header)) then some (encodeHeaderStr [] true)
          else none) = (none : Option String) from rfl]
      have hhu : (if headerHasElements (some u) then some (encodeHeaderStr u false) else none)
          = some (encodeHeaderStr u false) := by simp [headerHasElements, huz]
      rw [hhu]
      simp only [ok_bind, pureE_bind]
      rw [show encodeHeaderStr u false = String.mk (headerChars u) from rfl]
      rw [if_pos ⟨headerText_ne_empty u, headerText_ne_e30 u⟩]
      rw [setUnprotectedStr_headerText u huw]
      simp only [ok_bind, pureE_bind]
      rw [mapM_decodeGeneralRecip rs hrsw]
      simp only [ok_bind, pureE_bind]
      simp only [isValidToken, Option.isSome_some]
      rw [if_neg hlen, checkRecipients_true rs 0 hkeys]
  · by_cases huz : u = []
    · subst huz
      have hhp : (if headerHasElements (some p) then some (encodeHeaderStr p true) else none)
          = some (encodeHeaderStr p true) := by simp [headerHasElements, hpz]
      rw [hhp]
      rw [show (if headerHasElements (some ([] : Header)) then some (encodeHeaderStr [] false)
          else none) = (none : Option String) from rfl]
      simp only [ok_bind, pureE_bind]
      rw [if_pos (encHeaderTrue_ne_empty p)]
      rw [setProtectedStr_encodeHeader p hpw]
      simp only [ok_bind, pureE_bind]
      rw [mapM_decodeGeneralRecip rs hrsw]
      simp only [ok_bind, pureE_bind]
      simp only [isValidToken, Option.isSome_some]
      rw [if_neg hlen, checkRecipients_true rs 0 hkeys]
    · have hhp : (if headerHasElements (some p) then some (encodeHeaderStr p true) else none)
          = some (encodeHeaderStr p true) := by simp [headerHasElements, hpz]
      have hhu : (if headerHasElements (some u) then some (encodeHeaderStr u false) else none)
          = some (encodeHeaderStr u false) := by simp [headerHasElements, huz]
      rw [hhp, hhu]
      simp only [ok_bind, pureE_bind]
      rw [if_pos (encHeaderTrue_ne_empty p)]
      rw [setProtectedStr_encodeHeader p hpw]
      simp only [ok_bind, pureE_bind]
      rw [show encodeHeaderStr u false = String.mk (headerChars u) from rfl]
      rw [if_pos ⟨headerText_ne_empty u, headerText_ne_e30 u⟩]
      rw [setUnprotectedStr_headerText u huw]
      simp only [ok_bind, pureE_bind]
      rw [mapM_decodeGeneralRecip rs hrsw]
      simp only [ok_bind, pureE_bind]
      simp only [isValidToken, Option.isSome_some]
      rw [if_neg hlen, checkRecipients_true rs 0 hkeys]

theorem opt_if_some {c : Prop} [Decidable c] {X s : String}
    (h : (if c then some X else none) = some s) : s = X := by
  by_cases hc : c
  · rw [if_pos hc] at h
    exact (Option.some.inj h).symm
  · rw [if_neg hc] at h
    exact absurd h (by simp)

/-- C2 (amended): for every wellformed JWE token, serializing to General JSON
and deserializing the resulting string returns a token equal on protected
header, unprotected header, iv, aad, ciphertext, tag, and the recipient list
(same order, same headers and encrypted keys). -/
theorem c2_amended_general_roundtrip (t : JweToken) (hwf : TokenWF t) :
    ∃ s : String, JweToken.serialize t (some "JweGeneralJson") = .ok s ∧
      ∃ tF : JweToken, JweToken.deserialize s = .ok tF ∧
        tF.protected_ = t.protected_ ∧ tF.unprotected = t.unprotected ∧
        tF.iv = t.iv ∧ tF.aad = t.aad ∧ tF.ciphertext = t.ciphertext ∧
        tF.tag = t.tag ∧ tF.recipients = t.recipients := by
  obtain ⟨p, hp, hpw⟩ := OptPred_elim hwf.1
  obtain ⟨u, hu, huw⟩ := OptPred_elim hwf.2.1
  obtain ⟨ivb, hiv, hivw⟩ := OptPred_elim hwf.2.2.1
  obtain ⟨aadb, haad, haadw⟩ := OptPred_elim hwf.2.2.2.1
  obtain ⟨ctb, hct, hctw⟩ := OptPred_elim hwf.2.2.2.2.1
  obtain ⟨tagb, htag, htagw⟩ := OptPred_elim hwf.2.2.2.2.2.1
  obtain ⟨rs, hrs, hrsne, hrsw⟩ := OptPred_elim hwf.2.2.2.2.2.2
  refine ⟨String.mk (generalTextChars ((rs.map recipStrings).map renderRecip)
      (b64Encode aadb) (b64Encode ivb) (b64Encode ctb) (b64Encode tagb)
      (if headerHasElements (some p) then some (encodeHeaderStr p true) else none)
      (if headerHasElements (some u) then some (encodeHeaderStr u false) else none)), ?_, ?_⟩
  · unfold JweToken.serialize
    simp only [Option.getD_some, if_true]
    rw [serializeJweGeneralJson_eval t p u ivb aadb ctb tagb rs hp hu hiv haad hct htag hrs hrsw]
    rfl
  · have hnodot : dotc ∉ generalTextChars ((rs.map recipStrings).map renderRecip)
        (b64Encode aadb) (b64Encode ivb) (b64Encode ctb) (b64Encode tagb)
        (if headerHasElements (some p) then some (encodeHeaderStr p true) else none)
        (if headerHasElements (some u) then some (encodeHeaderStr u false) else none) := by
      apply dotc_not_mem_generalText
      · intro q hq
        simp only [List.map_map, List.mem_map] at hq
        obtain ⟨r, hr, rfl⟩ := hq
        obtain ⟨k, hk, hkw⟩ := OptPred_elim (hrsw r hr).1
        apply dotc_not_mem_recipObjChars
        · unfold recipStrings
          simp only [hk, Option.getD_some]
          exact dotc_not_mem_b64 k hkw
        · intro s hs
          unfold recipStrings at hs
          simp only at hs
          have hs2 := opt_if_some hs
          subst hs2
          rcases (hrsw r hr).2 with hh | hh
          · rw [hh] at hs
            exact absurd hs (by simp [headerHasElements])
          · obtain ⟨hh2, hhdr, hne, hhw⟩ := OptPred_elim hh
            rw [hhdr] at hs ⊢
            simp only [Option.getD_some]
            rw [encodeHeaderStr_false]
            rw [strMk_data]
            exact dotc_not_mem_headerChars hh2 hhw
      · exact dotc_not_mem_b64 aadb haadw
      · exact dotc_not_mem_b64 ivb hivw
      · exact dotc_not_mem_b64 ctb hctw
      · exact dotc_not_mem_b64 tagb htagw
      · intro s hs
        have hs2 := opt_if_some hs
        subst hs2
        have h1 : encodeHeaderStr p true = b64Encode (strBytes (String.mk (headerChars p))) :=
          rfl
        rw [h1]
        exact dotc_not_mem_b64 _ (headerText_bytesWF p hpw)
      · intro s hs
        have hs2 := opt_if_some hs
        subst hs2
        rw [encodeHeaderStr_false, strMk_data]
        exact dotc_not_mem_headerChars u huw
    refine ⟨{ protected_ := some p, unprotected := some u, iv := some ivb,
              aad := some aadb, ciphertext := some ctb, tag := some tagb,
              recipients := some rs },
      ?_, by simp [hp], by simp [hu], by simp [hiv],
      by simp [haad], by simp [hct], by simp [htag], by simp [hrs]⟩
    unfold JweToken.deserialize deserializeWith
    rw [strMk_data]
    rw [splitSep_no_sep dotc _ hnodot]
    rw [if_neg (by simp)]
    unfold parseJsonModel
    rw [parseGeneralChars_generalText (rs.map recipStrings) (b64Encode aadb) (b64Encode ivb)
      (b64Encode ctb) (b64Encode tagb) _ _]
    simp only []
    rw [setGeneralParts_rt p u hpw huw ivb aadb ctb tagb hivw haadw hctw htagw rs hrsne hrsw]
    rfl

/-! ### Concrete example tokens and claim-level results for serialization -/

/-- A small wellformed JWE token used as concrete input: non-empty protected
and unprotected headers, one recipient with its own header. -/
def exToken : JweToken := {
  protected_ := some [("alg", "RSA-OAEP-256"), ("enc", "A256GCM")],
  unprotected := some [("u", "v")],
  iv := some [1, 2, 3], aad := some [9], ciphertext := some [5, 6], tag := some [7],
  recipients := some [{ header := some [("kid", "a")], encrypted_key := some [8, 8] }] }

/-- The example token with a second recipient appended. -/
def exToken2 : JweToken :=
  { exToken with
      recipients := some
          [{ header := some [("kid", "a")], encrypted_key := some [8, 8] },
           { header := some [("kid", "b")], encrypted_key := some [9, 9] }] }

instance {ε α : Type} [DecidableEq ε] [DecidableEq α] : DecidableEq (Except ε α) :=
  fun x y =>
    match x, y with
    | .ok a, .ok b =>
        if h : a = b then isTrue (by rw [h]) else isFalse (by simp [h])
    | .error a, .error b =>
        if h : a = b then isTrue (by rw [h]) else isFalse (by simp [h])
    | .ok _, .error _ => isFalse (by simp)
    | .error _, .ok _ => isFalse (by simp)

/-- Serialize then deserialize through one format. -/
def roundTripVia (fmt : String) (t : JweToken) : Except String JweToken :=
  match JweToken.serialize t (some fmt) with
  | .ok s => JweToken.deserialize s
  | .error e => .error e

/-- Substring test over character lists. -/
def containsSub : List Char → List Char → Bool
  | needle, [] => needle.isEmpty
  | needle, c :: t => (stripPre needle (c :: t)).isSome || containsSub needle t

set_option maxRecDepth 100000 in
/-- C2 (counterexample): on a valid token with a non-empty unprotected
header, the Flat JSON round trip throws (the serializer base64url-encodes
the unprotected header but the deserializer JSON-parses it raw), and the
Compact round trip loses the unprotected header; so round-tripping does not
preserve every semantic field for all three formats. -/
theorem c2_counterexample :
    roundTripVia "JweFlatJson" exToken = .error "SyntaxError: unexpected token in JSON" ∧
    (roundTripVia "JweCompactJson" exToken).map (fun tF => tF.unprotected) = .ok (some []) ∧
    exToken.unprotected = some [("u", "v")] ∧ (isValidToken exToken).1 = true := by decide

/-- C2 (witness): the round-trip theorem applied to the concrete example
token. -/
theorem c2_witness :
    TokenWF exToken ∧
    (∃ s : String, JweToken.serialize exToken (some "JweGeneralJson") = .ok s ∧
      ∃ tF : JweToken, JweToken.deserialize s = .ok tF ∧
        tF.protected_ = exToken.protected_ ∧ tF.unprotected = exToken.unprotected ∧
        tF.iv = exToken.iv ∧ tF.aad = exToken.aad ∧ tF.ciphertext = exToken.ciphertext ∧
        tF.tag = exToken.tag ∧ tF.recipients = exToken.recipients) :=
  ⟨by decide, c2_amended_general_roundtrip exToken (by decide)⟩

/-- C4 (counterexample): requesting the unsupported format `bluesky` on a
token whose stored format is General JSON produces an error message naming
the stored format, not the requested one — the message does not contain
`bluesky`. -/
theorem c4_counterexample :
    JweToken.serialize exToken (some "bluesky") =
      .error ("The format " ++ sq ++ "JweGeneralJson" ++ sq ++ " is not supported") ∧
    containsSub "bluesky".data
      ("The format " ++ sq ++ "JweGeneralJson" ++ sq ++ " is not supported").data = false := by
  decide

/-- C4 (amended): for every format value outside the supported set, serialize
throws an UnsupportedFormat error whose message carries the token's stored
format value (`this.format`), which need not be the requested one. -/
theorem c4_amended_serialize_unsupported (t : JweToken) (f : String)
    (hf : f ≠ "JweGeneralJson" ∧ f ≠ "JweCompactJson" ∧ f ≠ "JweFlatJson") :
    JweToken.serialize t (some f) =
      .error ("The format " ++ sq ++ t.format ++ sq ++ " is not supported") := by
  unfold JweToken.serialize
  simp only [Option.getD_some]
  rw [if_neg hf.1, if_neg hf.2.1, if_neg hf.2.2]

/-- C4 (witness): the amended statement at the concrete input `bluesky`. -/
theorem c4_witness :
    ("bluesky" ≠ "JweGeneralJson" ∧ "bluesky" ≠ "JweCompactJson" ∧
      "bluesky" ≠ "JweFlatJson") ∧
    JweToken.serialize exToken (some "bluesky") =
      .error ("The format " ++ sq ++ exToken.format ++ sq ++ " is not supported") :=
  ⟨by decide, c4_amended_serialize_unsupported exToken "bluesky" (by decide)⟩

/-- C8 (counterexample): a token holding two recipients serializes to Compact
without any failure — the extra recipient is silently dropped, contradicting
the claim that Compact must fail with more than one recipient. -/
theorem c8_counterexample :
    (JweToken.serialize exToken2 (some "JweCompactJson")).isOk = true ∧
    (exToken2.recipients.map List.length) = some 2 := by decide

/-- C8 (amended): Compact serialization succeeds whenever there is at least
one recipient with an encrypted key (extra recipients are ignored), and the
output is the five dot-separated fields protected, first encrypted_key, iv,
ciphertext, tag. -/
theorem c8_amended_compact_shape (t : JweToken) (r0 : JweRecipient)
    (rest : List JweRecipient) (ek ivb ctb tagb : Bytes)
    (hrs : t.recipients = some (r0 :: rest)) (hek : r0.encrypted_key = some ek)
    (hiv : t.iv = some ivb) (hct : t.ciphertext = some ctb) (htag : t.tag = some tagb) :
    JweToken.serialize t (some "JweCompactJson") = .ok (String.mk
      ((if headerHasElements t.protected_ then encodeHeaderStr (t.protected_.getD []) true
        else "").data ++
       dotc :: (b64Encode ek).data ++ dotc :: (b64Encode ivb).data ++
       dotc :: (b64Encode ctb).data ++ dotc :: (b64Encode tagb).data)) := by
  rw [show JweToken.serialize t (some "JweCompactJson") =
        Except.map String.mk (serializeJweCompact t) from rfl]
  unfold serializeJweCompact
  rw [hrs]
  simp only []
  rw [hek, hiv, hct, htag]
  simp only [reqBytes, ok_bind]
  rfl

/-- C8 (witness): the amended statement at the two-recipient example token. -/
theorem c8_witness :
    exToken2.recipients = some
      [{ header := some [("kid", "a")], encrypted_key := some [8, 8] },
       { header := some [("kid", "b")], encrypted_key := some [9, 9] }] ∧
    JweToken.serialize exToken2 (some "JweCompactJson") = .ok (String.mk
      ((if headerHasElements exToken2.protected_ then
          encodeHeaderStr (exToken2.protected_.getD []) true else "").data ++
       dotc :: (b64Encode [8, 8]).data ++ dotc :: (b64Encode [1, 2, 3]).data ++
       dotc :: (b64Encode [5, 6]).data ++ dotc :: (b64Encode [7]).data)) :=
  ⟨by decide, c8_amended_compact_shape exToken2
      { header := some [("kid", "a")], encrypted_key := some [8, 8] }
      [{ header := some [("kid", "b")], encrypted_key := some [9, 9] }]
      [8, 8] [1, 2, 3] [5, 6] [7]
      (by decide) (by decide) (by decide) (by decide) (by decide)⟩

/-! ## Validity check characterization (C5) -/

/-- The recipient loop of `isValidToken` succeeds exactly when every recipient
has a present `encrypted_key` and, whenever the protected header is absent, a
present header of its own. -/
theorem checkRecipients_iff (b : Bool) (rs : List JweRecipient) (i : Nat) :
    (checkRecipients b rs i).1 = true ↔
      ∀ r ∈ rs, r.encrypted_key.isSome = true ∧ (b = true ∨ r.header.isSome = true) := by
  induction rs generalizing i with
  | nil => simp [checkRecipients]
  | cons r rest ih =>
      cases hek : r.encrypted_key with
      | none => simp [checkRecipients, hek, List.forall_mem_cons]
      | some ek =>
          cases b with
          | true => simp [checkRecipients, hek, List.forall_mem_cons, ih]
          | false =>
              cases hh : r.header with
              | none => simp [checkRecipients, hek, hh, List.forall_mem_cons]
              | some h => simp [checkRecipients, hek, hh, List.forall_mem_cons, ih]

/-- C5 (counterexample): `isValidToken` accepts a token whose ciphertext and
iv are present but empty buffers and whose only recipient carries an empty
header with no resolvable algorithm, contradicting the claim that a true
result requires non-empty ciphertext and iv and a resolvable algorithm. -/
theorem c5_counterexample :
    (isValidToken
        { ciphertext := some [], iv := some [], protected_ := none,
          recipients := some [{ header := some [], encrypted_key := some [] }] }).1 = true ∧
    ({ ciphertext := some [], iv := some [], protected_ := none,
       recipients := some [{ header := some [], encrypted_key := some [] }] }
        : JweToken).ciphertext = some [] ∧
    ([] : Header).lookup "alg" = none := by decide

/-- C5 (amended): `isValidToken` returns a true result exactly when the
ciphertext, iv and recipients fields are present (they may be empty buffers),
the recipients list is non-empty, and every recipient has a present
encrypted_key and — when the shared protected header is absent — a present
header of its own; only presence is checked, not non-emptiness or algorithm
resolvability, and false results name the missing field. -/
theorem c5_amended_isValidToken (t : JweToken) :
    (isValidToken t).1 = true ↔
      t.ciphertext.isSome = true ∧ t.iv.isSome = true ∧
      ∃ rs, t.recipients = some rs ∧ rs ≠ [] ∧
        ∀ r ∈ rs, r.encrypted_key.isSome = true ∧
          (t.protected_.isSome = true ∨ r.header.isSome = true) := by
  cases hc : t.ciphertext with
  | none => simp [isValidToken, hc]
  | some c =>
      cases hi : t.iv with
      | none => simp [isValidToken, hc, hi]
      | some i =>
          cases hr : t.recipients with
          | none => simp [isValidToken, hc, hi, hr]
          | some rs =>
              by_cases hlen : rs.length = 0
              · have hnil : rs = [] := List.length_eq_zero.mp hlen
                simp [isValidToken, hc, hi, hr, hnil]
              · have hne : rs ≠ [] := by
                  intro h
                  exact hlen (by simp [h])
                simp [isValidToken, hc, hi, hr, hlen, hne, checkRecipients_iff]

/-- Witness for C5: a concrete token with present ciphertext, iv and one
complete recipient is accepted, through the amended characterization. -/
theorem c5_witness :
    (isValidToken
        { ciphertext := some [1], iv := some [2], protected_ := some [("alg", "A256GCM")],
          recipients := some [{ header := none, encrypted_key := some [3] }] }).1 = true :=
  (c5_amended_isValidToken _).mpr
    ⟨by decide, by decide,
     [{ header := none, encrypted_key := some [3] }], rfl, by decide, by decide⟩

/-! ## C10: the `e30` sentinel in `setGeneralParts` -/

theorem err_bind {ε α β : Type} (e : ε) (f : α → Except ε β) :
    (Except.error e : Except ε α) >>= f = .error e := rfl

/-- Tail of `setGeneralParts` (tag, recipients, validity record): the
unprotected header of the produced token is the one of the intermediate
token `t3`. -/
theorem genTail_unprot (t3 : JweToken) (tago : Option String)
    (recips : List ParsedRecipient) (st : Bool × String) (t4 : JweToken)
    (hok : (fieldB64 tago >>= fun tag =>
            (recips.mapM decodeGeneralRecip) >>= fun rs =>
            (Except.ok (isValidToken { t3 with tag := some tag, recipients := some rs },
                        { t3 with tag := some tag, recipients := some rs }) :
              Except String ((Bool × String) × JweToken))) = .ok (st, t4)) :
    t4.unprotected = t3.unprotected := by
  cases htag : fieldB64 tago with
  | error e =>
      rw [htag, err_bind] at hok
      exact Except.noConfusion hok
  | ok tagb =>
      rw [htag, ok_bind] at hok
      cases hmm2 : recips.mapM decodeGeneralRecip with
      | error e =>
          rw [hmm2, err_bind] at hok
          exact Except.noConfusion hok
      | ok rsv =>
          rw [hmm2, ok_bind] at hok
          have h2 := Except.ok.inj hok
          have h4 : t4 = { t3 with tag := some tagb, recipients := some rsv } :=
            ((Prod.mk.injEq _ _ _ _).mp h2).2.symm
          rw [h4]

/-- Structural fact: on a fresh token, a successful `setGeneralParts` leaves
the unprotected header empty unless the parsed `unprotected` string is
present, non-empty and different from `e30`, in which case it is the decoded
header. -/
theorem setGeneralParts_unprotected_eq (content : ParsedJson)
    (recips : List ParsedRecipient) (st : Bool × String) (t4 : JweToken)
    (hrec : content.recipients = some recips)
    (hok : setGeneralParts {} content = .ok (st, t4)) :
    t4.unprotected =
      match content.unprotected with
      | some s =>
          if s ≠ "" ∧ s ≠ "e30" then
            match setUnprotectedStr s with
            | .ok h => some h
            | .error _ => some []
          else some []
      | none => some [] := by
  unfold setGeneralParts at hok
  rw [hrec] at hok
  simp only [] at hok
  cases hct : fieldB64 content.ciphertext with
  | error e =>
      rw [hct, err_bind] at hok
      exact Except.noConfusion hok
  | ok ct =>
  rw [hct, ok_bind] at hok
  cases haad : fieldB64 content.aad with
  | error e =>
      rw [haad, err_bind] at hok
      exact Except.noConfusion hok
  | ok aadb =>
  rw [haad, ok_bind] at hok
  cases hiv : fieldB64 content.iv with
  | error e =>
      rw [hiv, err_bind] at hok
      exact Except.noConfusion hok
  | ok ivb =>
  rw [hiv, ok_bind] at hok
  cases hp : content.protected_ with
  | none =>
      rw [hp] at hok
      try simp only [pureE_bind] at hok
      cases hu : content.unprotected with
      | none =>
          rw [hu] at hok
          try simp only [pureE_bind] at hok
          exact genTail_unprot
            { iv := some ivb, aad := some aadb, ciphertext := some ct }
            content.tag recips st t4 hok
      | some s =>
          rw [hu] at hok
          try simp only [] at hok
          by_cases hcond : s ≠ "" ∧ s ≠ "e30"
          · rw [if_pos hcond] at hok
            cases hus : setUnprotectedStr s with
            | error e =>
                rw [hus, err_bind] at hok
                exact Except.noConfusion hok
            | ok hdr =>
                rw [hus, ok_bind] at hok
                try simp only [pureE_bind] at hok
                simp only []
                rw [if_pos hcond, hus]
                exact genTail_unprot
                  { iv := some ivb, aad := some aadb, ciphertext := some ct,
                    unprotected := some hdr }
                  content.tag recips st t4 hok
          · rw [if_neg hcond] at hok
            try simp only [pureE_bind] at hok
            simp only []
            rw [if_neg hcond]
            exact genTail_unprot
              { iv := some ivb, aad := some aadb, ciphertext := some ct }
              content.tag recips st t4 hok
  | some ps =>
      rw [hp] at hok
      try simp only [] at hok
      by_cases hpc : ps ≠ ""
      · rw [if_pos hpc] at hok
        cases hps : setProtectedStr ps with
        | error e =>
            rw [hps, err_bind] at hok
            exact Except.noConfusion hok
        | ok phdr =>
            rw [hps, ok_bind] at hok
            try simp only [pureE_bind] at hok
            cases hu : content.unprotected with
            | none =>
                rw [hu] at hok
                try simp only [pureE_bind] at hok
                exact genTail_unprot
                  { iv := some ivb, aad := some aadb, ciphertext := some ct,
                    protected_ := some phdr }
                  content.tag recips st t4 hok
            | some s =>
                rw [hu] at hok
                try simp only [] at hok
                by_cases hcond : s ≠ "" ∧ s ≠ "e30"
                · rw [if_pos hcond] at hok
                  cases hus : setUnprotectedStr s with
                  | error e =>
                      rw [hus, err_bind] at hok
                      exact Except.noConfusion hok
                  | ok hdr =>
                      rw [hus, ok_bind] at hok
                      try simp only [pureE_bind] at hok
                      simp only []
                      rw [if_pos hcond, hus]
                      exact genTail_unprot
                        { iv := some ivb, aad := some aadb, ciphertext := some ct,
                          protected_ := some phdr, unprotected := some hdr }
                        content.tag recips st t4 hok
                · rw [if_neg hcond] at hok
                  try simp only [pureE_bind] at hok
                  simp only []
                  rw [if_neg hcond]
                  exact genTail_unprot
                    { iv := some ivb, aad := some aadb, ciphertext := some ct,
                      protected_ := some phdr }
                    content.tag recips st t4 hok
      · rw [if_neg hpc] at hok
        try simp only [pureE_bind] at hok
        cases hu : content.unprotected with
        | none =>
            rw [hu] at hok
            try simp only [pureE_bind] at hok
            exact genTail_unprot
              { iv := some ivb, aad := some aadb, ciphertext := some ct }
              content.tag recips st t4 hok
        | some s =>
            rw [hu] at hok
            try simp only [] at hok
            by_cases hcond : s ≠ "" ∧ s ≠ "e30"
            · rw [if_pos hcond] at hok
              cases hus : setUnprotectedStr s with
              | error e =>
                  rw [hus, err_bind] at hok
                  exact Except.noConfusion hok
              | ok hdr =>
                  rw [hus, ok_bind] at hok
                  try simp only [pureE_bind] at hok
                  simp only []
                  rw [if_pos hcond, hus]
                  exact genTail_unprot
                    { iv := some ivb, aad := some aadb, ciphertext := some ct,
                      unprotected := some hdr }
                    content.tag recips st t4 hok
            · rw [if_neg hcond] at hok
              try simp only [pureE_bind] at hok
              simp only []
              rw [if_neg hcond]
              exact genTail_unprot
                { iv := some ivb, aad := some aadb, ciphertext := some ct }
                content.tag recips st t4 hok

/-- C10: `e30` is the base64url encoding of the empty JSON object, and in
general-JSON deserialization an unprotected header string equal to `e30` is
treated as absent — the token keeps its fresh empty unprotected header —
while any other non-empty unprotected header string that parses is decoded
and set. -/
theorem c10_unprotected_e30 (content : ParsedJson) :
    encodeHeaderStr [] true = "e30" ∧
    (∀ recips st t4, content.recipients = some recips →
      content.unprotected = some "e30" →
      setGeneralParts {} content = .ok (st, t4) → t4.unprotected = some []) ∧
    (∀ recips st t4 s h, content.recipients = some recips →
      content.unprotected = some s → s ≠ "" → s ≠ "e30" →
      setUnprotectedStr s = .ok h →
      setGeneralParts {} content = .ok (st, t4) → t4.unprotected = some h) := by
  refine ⟨by decide, ?_, ?_⟩
  · intro recips st t4 hrec hu hok
    have heq := setGeneralParts_unprotected_eq content recips st t4 hrec hok
    rw [hu] at heq
    simp only [] at heq
    rw [if_neg (by decide)] at heq
    exact heq
  · intro recips st t4 s h hrec hu hs1 hs2 hparse hok
    have heq := setGeneralParts_unprotected_eq content recips st t4 hrec hok
    rw [hu] at heq
    simp only [] at heq
    rw [if_pos ⟨hs1, hs2⟩, hparse] at heq
    exact heq

/-- The parsed JSON content used to exercise C10 concretely. -/
def c10content : ParsedJson :=
  { recipients := some [{ encrypted_key := some "AA", header := none }],
    ciphertext := some "AA", aad := some "AA", iv := some "AA", tag := some "AA",
    protected_ := none, unprotected := some "e30" }

/-- The token produced by `setGeneralParts` on `c10content`. -/
def c10tok : JweToken :=
  { protected_ := some [], unprotected := some [], iv := some [0], aad := some [0],
    ciphertext := some [0], tag := some [0],
    recipients := some [{ header := none, encrypted_key := some [0] }] }

/-- Witness for C10: a concrete general-JSON content whose unprotected field
is the string `e30` deserializes successfully and its token keeps the empty
unprotected header. -/
theorem c10_witness :
    setGeneralParts {} c10content = .ok ((true, ""), c10tok) ∧
    c10tok.unprotected = some [] :=
  ⟨by decide,
   (c10_unprotected_e30 c10content).2.1 [{ encrypted_key := some "AA", header := none }]
     (true, "") c10tok rfl rfl (by decide)⟩

/-! ## C7: deserialize dispatch -/

/-- C7: a five-part dot split is deserialized as Compact — protected header,
encrypted key, iv, ciphertext and tag in that order, with the aad set to the
decoded first part — while any other input is parsed as JSON with the
General shape attempted before the Flat shape, and the hard parse errors
surface only when no shape matched. -/
theorem c7_deserialize_dispatch (pj : List Char → Option ParsedJson) (token : String) :
    (∀ p0 p1 p2 p3 p4, splitSep dotc token.data = [p0, p1, p2, p3, p4] →
      deserializeWith pj token = compactFromParts p0 p1 p2 p3 p4) ∧
    (∀ p0 p1 p2 p3 p4 prot, splitSep dotc token.data = [p0, p1, p2, p3, p4] →
      setProtectedStr (String.mk p0) = .ok prot →
      deserializeWith pj token = .ok
        { protected_ := some prot,
          recipients := some [{ header := none, encrypted_key := some (decB64 p1) }],
          iv := some (decB64 p2), ciphertext := some (decB64 p3),
          tag := some (decB64 p4), aad := some (decB64 p0) }) ∧
    ((splitSep dotc token.data).length ≠ 5 →
      (pj token.data = none →
        deserializeWith pj token =
          .error "The presented object is not deserializable and is no compact format.") ∧
      (∀ content st1 t1, pj token.data = some content →
        setGeneralParts {} content = .ok (st1, t1) → st1.1 = true →
        deserializeWith pj token = .ok t1) ∧
      (∀ content st1 t1 st2 t2, pj token.data = some content →
        setGeneralParts {} content = .ok (st1, t1) → st1.1 = false →
        setFlatParts t1 content = .ok (st2, t2) → st2.1 = true →
        deserializeWith pj token = .ok t2) ∧
      (∀ content st1 t1 st2 t2, pj token.data = some content →
        setGeneralParts {} content = .ok (st1, t1) → st1.1 = false →
        setFlatParts t1 content = .ok (st2, t2) → st2.1 = false →
        deserializeWith pj token =
          .error "The content does not represent a valid jwe token")) := by
  refine ⟨?_, ?_, ?_⟩
  · intro p0 p1 p2 p3 p4 hsplit
    simp [deserializeWith, hsplit]
  · intro p0 p1 p2 p3 p4 prot hsplit hprot
    have h1 : deserializeWith pj token = compactFromParts p0 p1 p2 p3 p4 := by
      simp [deserializeWith, hsplit]
    rw [h1]
    unfold compactFromParts
    rw [hprot, ok_bind]
  · intro hlen
    have hne : ¬ ((splitSep dotc token.data).length = 5) := hlen
    refine ⟨?_, ?_, ?_, ?_⟩
    · intro hpj
      simp only [deserializeWith]
      rw [if_neg hne, hpj]
    · intro content st1 t1 hpj hgen hst
      simp only [deserializeWith]
      rw [if_neg hne, hpj]
      simp only []
      rw [hgen]
      simp only []
      rw [hst, if_pos rfl]
    · intro content st1 t1 st2 t2 hpj hgen hst1 hflat hst2
      simp only [deserializeWith]
      rw [if_neg hne, hpj]
      simp only []
      rw [hgen]
      simp only []
      rw [hst1]
      rw [if_neg Bool.false_ne_true]
      rw [hflat]
      simp only []
      rw [hst2, if_pos rfl]
    · intro content st1 t1 st2 t2 hpj hgen hst1 hflat hst2
      simp only [deserializeWith]
      rw [if_neg hne, hpj]
      simp only []
      rw [hgen]
      simp only []
      rw [hst1]
      rw [if_neg Bool.false_ne_true]
      rw [hflat]
      simp only []
      rw [hst2]
      rw [if_neg Bool.false_ne_true]

/-- Witness for C7: a concrete string with exactly five dot-separated parts
is deserialized through the Compact branch. -/
theorem c7_witness :
    deserializeWith (fun _ => none) "e30.e30.e30.e30.e30" =
      compactFromParts (String.data "e30") (String.data "e30") (String.data "e30")
        (String.data "e30") (String.data "e30") :=
  (c7_deserialize_dispatch (fun _ => none) "e30.e30.e30.e30.e30").1
    (String.data "e30") (String.data "e30") (String.data "e30") (String.data "e30")
    (String.data "e30") (by decide)

/-! ## C6: content-encryption-key recovery in `decrypt`
(`JweToken.ts` lines 528-557)

The surrounding machinery (key store, SubtleCryptoExtension) is external;
`decryptContentEncryptionKey` applied to a fixed decryptor and key reference
is a function of the recipient alone, abstracted as `unwrap`. A successful
unwrap returns a `Buffer`, which is truthy even when empty, so the loops
break on the first attempted recipient; a rejected promise propagates. -/

/-- The kid-matching loop of `decrypt` (lines 531-543): walk the recipients,
and at the first one whose header `kid` is present, non-empty and equal to
the local key's kid, attempt the unwrap — the result (or its exception) is
final because the truthy assignment breaks the loop. -/
def kidPhase (kid : String) (unwrap : JweRecipient → Except String Bytes) :
    List JweRecipient → Except String (Option Bytes)
  | [] => .ok none
  | r :: rest =>
      match r.header with
      | some h =>
          (match h.lookup "kid" with
           | some hk =>
               if hk ≠ "" ∧ hk = kid then
                 (match unwrap r with
                  | .ok cek => .ok (some cek)
                  | .error e => .error e)
               else kidPhase kid unwrap rest
           | none => kidPhase kid unwrap rest)
      | none => kidPhase kid unwrap rest

/-- Model of the content-encryption-key recovery phase of `JweToken.decrypt`
(lines 528-557): the kid loop runs only when the local key has a truthy kid;
if it recovered nothing, the fallback loop attempts recipients in order but
its truthy-assignment `break` fires on the very first attempt; the
`Cannot decrypt the content encryption key because of missing key` rejection
fires only when no key was recovered. -/
def decryptCEKModel (jwkKid : Option String) (unwrap : JweRecipient → Except String Bytes)
    (rs : List JweRecipient) : Except String Bytes := do
  let cek1 : Option Bytes ←
    match jwkKid with
    | some kid => if kid ≠ "" then kidPhase kid unwrap rs else .ok none
    | none => .ok none
  let cek2 : Option Bytes ←
    match cek1 with
    | some c => .ok (some c)
    | none =>
        match rs with
        | [] => .ok (none : Option Bytes)
        | r :: _ =>
            (match unwrap r with
             | .ok cek => .ok (some cek)
             | .error e => .error e)
  match cek2 with
  | some c => .ok c
  | none => .error "Cannot decrypt the content encryption key because of missing key"

/-- Does this recipient's header carry a non-empty `kid` equal to the given
one? -/
def kidMatches (kid : String) (r : JweRecipient) : Bool :=
  match r.header with
  | some h =>
      (match h.lookup "kid" with
       | some hk => decide (hk ≠ "" ∧ hk = kid)
       | none => false)
  | none => false

/-- Amended selection policy, written from the corrected claim: with a
truthy local kid, the first kid-matching recipient alone is attempted and
its unwrap outcome is final; otherwise only the first recipient of the list
is attempted; the ContentKeyUnrecoverable rejection occurs exactly when the
recipients list is empty. -/
def decryptCEKSpec (jwkKid : Option String) (unwrap : JweRecipient → Except String Bytes)
    (rs : List JweRecipient) : Except String Bytes :=
  let matched : Option JweRecipient :=
    match jwkKid with
    | some kid => if kid ≠ "" then rs.find? (kidMatches kid) else none
    | none => none
  match matched with
  | some r => unwrap r
  | none =>
      match rs with
      | [] => .error "Cannot decrypt the content encryption key because of missing key"
      | r :: _ => unwrap r

/-- The kid loop attempts exactly the first recipient satisfying
`kidMatches`. -/
theorem kidPhase_find (kid : String) (unwrap : JweRecipient → Except String Bytes)
    (rs : List JweRecipient) :
    kidPhase kid unwrap rs =
      match rs.find? (kidMatches kid) with
      | some r => (match unwrap r with | .ok c => .ok (some c) | .error e => .error e)
      | none => .ok none := by
  induction rs with
  | nil => rfl
  | cons r rest ih =>
      cases hh : r.header with
      | none =>
          have hm : kidMatches kid r = false := by simp [kidMatches, hh]
          simp [kidPhase, hh, List.find?_cons, hm, ih]
      | some h =>
          cases hk : h.lookup "kid" with
          | none =>
              have hm : kidMatches kid r = false := by simp [kidMatches, hh, hk]
              simp [kidPhase, hh, hk, List.find?_cons, hm, ih]
          | some hkv =>
              by_cases hc : hkv ≠ "" ∧ hkv = kid
              · obtain ⟨hne, heq⟩ := hc
                subst heq
                have hm : kidMatches hkv r = true := by simp [kidMatches, hh, hk, hne]
                simp [kidPhase, hh, hk, hne, List.find?_cons, hm]
              · have hm : kidMatches kid r = false := by
                  simp only [kidMatches, hh, hk]
                  exact decide_eq_false hc
                simp [kidPhase, hh, hk, hc, List.find?_cons, hm, ih]

/-- C6 (counterexample): with no kid available and two recipients, of which
only the second unwraps cleanly, `decrypt` does not fall through to the
second recipient: the first attempt's exception propagates, refuting the
claim that the fallback tries every recipient and succeeds on the first that
decrypts cleanly. -/
theorem c6_counterexample :
    decryptCEKModel none
        (fun r => if r.encrypted_key = some [1] then .error "OperationError" else .ok [42])
        [{ header := none, encrypted_key := some [1] },
         { header := none, encrypted_key := some [2] }] = .error "OperationError" ∧
    (fun (r : JweRecipient) =>
        if r.encrypted_key = some [1] then Except.error "OperationError"
        else Except.ok ([42] : Bytes))
      { header := none, encrypted_key := some [2] } = .ok [42] := by decide

/-- C6 (amended): the key-recovery phase of `decrypt` equals the amended
policy: with a truthy local kid the first kid-matching recipient alone is
attempted and its unwrap outcome (success or exception) is final; when no
kid matched (or there is no kid) only the first recipient is attempted; the
ContentKeyUnrecoverable rejection happens exactly when the recipients list
is empty. -/
theorem c6_amended_decrypt_selection (jwkKid : Option String)
    (unwrap : JweRecipient → Except String Bytes) (rs : List JweRecipient) :
    decryptCEKModel jwkKid unwrap rs = decryptCEKSpec jwkKid unwrap rs := by
  cases jwkKid with
  | none =>
      cases rs with
      | nil => rfl
      | cons r rest =>
          cases hu : unwrap r <;>
            simp [decryptCEKModel, decryptCEKSpec, hu, ok_bind, err_bind]
  | some kid =>
      by_cases hk : kid ≠ ""
      · cases hf : rs.find? (kidMatches kid) with
        | some r =>
            cases hu : unwrap r <;>
              simp [decryptCEKModel, decryptCEKSpec, hk, kidPhase_find, hf, hu, ok_bind, err_bind]
        | none =>
            cases rs with
            | nil => simp [decryptCEKModel, decryptCEKSpec, hk, kidPhase_find, hf, ok_bind, err_bind]
            | cons r rest =>
                cases hu : unwrap r <;>
                  simp [decryptCEKModel, decryptCEKSpec, hk, kidPhase_find, hf, hu, ok_bind, err_bind]
      · have hk2 : kid = "" := by
          by_contra hne
          exact hk hne
        subst hk2
        cases rs with
        | nil => rfl
        | cons r rest =>
            cases hu : unwrap r <;>
              simp [decryptCEKModel, decryptCEKSpec, hu, ok_bind, err_bind]

/-- Witness for C6: on a concrete token with a kid-matching recipient the
model agrees with the amended selection policy, and that recipient's unwrap
result is returned. -/
theorem c6_witness :
    decryptCEKModel (some "k") (fun _ => .ok [9])
        [{ header := some [("kid", "k")], encrypted_key := some [1] }] =
      decryptCEKSpec (some "k") (fun _ => .ok [9])
        [{ header := some [("kid", "k")], encrypted_key := some [1] }] ∧
    decryptCEKSpec (some "k") (fun _ => .ok [9])
        [{ header := some [("kid", "k")], encrypted_key := some [1] }] = .ok [9] :=
  ⟨c6_amended_decrypt_selection (some "k") (fun _ => .ok [9])
     [{ header := some [("kid", "k")], encrypted_key := some [1] }],
   by decide⟩

/-! ## C1: pairwise key derivation (spec §4.3)

The pairwise implementation (`PairwiseKey`, `EcPairwiseKey`,
`RsaPairwiseKey`) is not among the provided sources — only its test files
are — so the derivation is modelled from the specification, §4.3. The keyed
hash, the EC point multiplication and the primality test are the Primitive
Adapter's work and enter as parameters. -/

/-- Modelled from the spec: the deterministic primitives §4.3 relies on —
an HMAC-style keyed hash (key, data ↦ mac), the secp256k1 scalar-to-point
map, and the primality test of the RSA prime search. -/
structure PairwisePrims where
  kdf : Bytes → Bytes → Bytes
  ecMul : Nat → Bytes
  isPrime : Nat → Bool

/-- Modelled from the spec: the key families `generatePairwiseKey` accepts
or rejects (§4.3 steps 3-5): EC with a named curve, RSA with a modulus
length, and the rejected symmetric family. -/
inductive PairwiseAlg where
  | ecdsa (curve : String)
  | rsa (modulusLength : Nat)
  | oct
deriving DecidableEq

/-- Modelled from the spec: the derived private key — EC private scalar with
its public point, or RSA modulus with public and private exponents. -/
inductive PairwisePrivateKey where
  | ec (d : Nat) (pub : Bytes)
  | rsa (n e d : Nat)
deriving DecidableEq

/-- The per-session cache of persona master keys, keyed by
(seed reference, persona) (§4.3 step 1). -/
abbrev MasterKeyCache : Type := List ((String × String) × Bytes)

/-- Lookup in the persona-master-key cache. -/
def cacheLookup (k : String × String) : MasterKeyCache → Option Bytes
  | [] => none
  | (k2, v) :: rest => if k = k2 then some v else cacheLookup k rest

/-- Modelled from the spec: §4.3 step 1 — the persona master key is the
keyed hash of the persona label under the master seed fetched from the key
store, cached per (seed reference, persona); a missing seed is a
`KeyNotFound` failure. -/
def generatePersonaMasterKey (P : PairwisePrims) (ks : String → Option Bytes)
    (st : MasterKeyCache) (seedRef persona : String) :
    Except String (Bytes × MasterKeyCache) :=
  match cacheLookup (seedRef, persona) st with
  | some mk => .ok (mk, st)
  | none =>
      match ks seedRef with
      | some seed =>
          let mk := P.kdf seed (strBytes persona)
          .ok (mk, ((seedRef, persona), mk) :: st)
      | none => .error ("KeyNotFound: " ++ seedRef)

/-- The secp256k1 group order. -/
def secp256k1Order : Nat :=
  0xFFFFFFFFFFFFFFFFFFFFFFFFFFFFFFFEBAAEDCE6AF48A03BBFD25E8CD0364141

/-- Big-endian byte-string-to-integer conversion. -/
def bytesToNat (b : Bytes) : Nat := b.foldl (fun acc x => acc * 256 + x) 0

/-- Modelled from the spec: §4.3 step 3 — reduce the per-peer seed to a
valid private scalar by repeated keyed-hash expansion with an incrementing
counter until the candidate is non-zero and strictly below the group order;
reject-and-retry, no clamping. Fuel bounds the unbounded source loop. -/
def ecScalarSearch (P : PairwisePrims) (peerSeed : Bytes) :
    Nat → Nat → Except String Nat
  | 0, _ => .error "scalar search exhausted"
  | fuel + 1, counter =>
      let candidate := bytesToNat (P.kdf peerSeed (strBytes (toString counter)))
      if candidate ≠ 0 ∧ candidate < secp256k1Order then .ok candidate
      else ecScalarSearch P peerSeed fuel (counter + 1)

/-- Modelled from the spec: §4.3 step 4 — expand the per-peer seed with a
tagged incrementing counter and test primality until a candidate prime
appears. Fuel bounds the unbounded source loop. -/
def primeSearch (P : PairwisePrims) (peerSeed : Bytes) (tag : String) :
    Nat → Nat → Except String Nat
  | 0, _ => .error "prime search exhausted"
  | fuel + 1, counter =>
      let candidate := bytesToNat (P.kdf peerSeed (strBytes (tag ++ toString counter)))
      if P.isPrime candidate then .ok candidate
      else primeSearch P peerSeed tag fuel (counter + 1)

/-- Modular inverse through the extended Euclidean algorithm, for the RSA
private exponent. -/
def invMod (a m : Nat) : Nat :=
  (((Nat.xgcd a m).1 % (m : Int) + (m : Int)) % (m : Int)).toNat

/-- Modelled from the spec: the up-front validation of the requested family
(§4.3 steps 3 and 5): only secp256k1 EC keys and RSA keys are derivable. -/
def algCheck : PairwiseAlg → Except String Unit
  | .oct => .error "UnsupportedPairwiseKeyType: oct"
  | .ecdsa curve => if curve = "secp256k1" then .ok () else .error ("UnsupportedCurve: " ++ curve)
  | .rsa _ => .ok ()

/-- Modelled from the spec: §4.3 steps 2-4 — derive the per-peer seed from
the persona master key, then run the family-specific deterministic search;
for RSA assemble modulus, fixed public exponent 65537 and private
exponent. -/
def deriveFromMasterKey (P : PairwisePrims) (fuel : Nat) (alg : PairwiseAlg)
    (mk : Bytes) (peer : String) : Except String PairwisePrivateKey :=
  let peerSeed := P.kdf mk (strBytes peer)
  match alg with
  | .oct => .error "UnsupportedPairwiseKeyType: oct"
  | .ecdsa _ => do
      let d ← ecScalarSearch P peerSeed fuel 0
      .ok (.ec d (P.ecMul d))
  | .rsa _ => do
      let p ← primeSearch P peerSeed "p" fuel 0
      let q ← primeSearch P peerSeed "q" fuel 0
      .ok (.rsa (p * q) 65537 (invMod 65537 ((p - 1) * (q - 1))))

/-- Modelled from the spec: `generatePairwiseKey` (§4.3, §4.4) — validate
the family, obtain the cached-or-computed persona master key, then derive
deterministically; the updated cache is returned with the key. -/
def generatePairwiseKey (P : PairwisePrims) (ks : String → Option Bytes)
    (fuel : Nat) (st : MasterKeyCache) (alg : PairwiseAlg)
    (seedRef persona peer : String) :
    Except String (PairwisePrivateKey × MasterKeyCache) := do
  let _ ← algCheck alg
  let pr ← generatePersonaMasterKey P ks st seedRef persona
  let k ← deriveFromMasterKey P fuel alg pr.1 peer
  .ok (k, pr.2)

/-- The cache invariant of §4.3 step 1: every cached entry is the value the
keyed hash would recompute ("cached … but otherwise recomputed
deterministically — never persisted as a new value"). -/
def CacheWF (P : PairwisePrims) (ks : String → Option Bytes) (st : MasterKeyCache) : Prop :=
  ∀ sr pe mk, ((sr, pe), mk) ∈ st →
    ∃ seed, ks sr = some seed ∧ mk = P.kdf seed (strBytes pe)

theorem cacheLookup_mem (k : String × String) (st : MasterKeyCache) (v : Bytes)
    (h : cacheLookup k st = some v) : (k, v) ∈ st := by
  induction st with
  | nil => exact absurd h (by simp [cacheLookup])
  | cons p rest ih =>
      obtain ⟨k2, v2⟩ := p
      by_cases hk : k = k2
      · subst hk
        rw [cacheLookup, if_pos rfl] at h
        rw [Option.some.inj h]
        exact List.mem_cons_self _ _
      · rw [cacheLookup, if_neg hk] at h
        exact List.mem_cons_of_mem _ (ih h)

/-- A successful persona-master-key computation returns the keyed hash of
the persona under the stored seed, and preserves the cache invariant. -/
theorem personaMK_spec (P : PairwisePrims) (ks : String → Option Bytes)
    (st : MasterKeyCache) (seedRef persona : String) (hwf : CacheWF P ks st)
    (mk : Bytes) (st2 : MasterKeyCache)
    (h : generatePersonaMasterKey P ks st seedRef persona = .ok (mk, st2)) :
    (∃ seed, ks seedRef = some seed ∧ mk = P.kdf seed (strBytes persona)) ∧
      CacheWF P ks st2 := by
  unfold generatePersonaMasterKey at h
  cases hl : cacheLookup (seedRef, persona) st with
  | some mk0 =>
      rw [hl] at h
      have h2 := Except.ok.inj h
      have hmk : mk = mk0 := (((Prod.mk.injEq _ _ _ _).mp h2).1).symm
      have hst : st2 = st := (((Prod.mk.injEq _ _ _ _).mp h2).2).symm
      obtain ⟨seed, hseed, hval⟩ :=
        hwf seedRef persona mk0 (cacheLookup_mem _ _ _ hl)
      subst hst
      exact ⟨⟨seed, hseed, by rw [hmk, hval]⟩, hwf⟩
  | none =>
      rw [hl] at h
      cases hk : ks seedRef with
      | none =>
          rw [hk] at h
          exact Except.noConfusion h
      | some seed =>
          rw [hk] at h
          have h2 := Except.ok.inj h
          have hmk : mk = P.kdf seed (strBytes persona) :=
            (((Prod.mk.injEq _ _ _ _).mp h2).1).symm
          have hst : st2 = ((seedRef, persona), P.kdf seed (strBytes persona)) :: st :=
            (((Prod.mk.injEq _ _ _ _).mp h2).2).symm
          refine ⟨⟨seed, rfl, hmk⟩, ?_⟩
          rw [hst]
          intro sr pe mkx hmem
          rcases List.mem_cons.mp hmem with hhead | htail
          · obtain ⟨hpair, hk3⟩ := Prod.mk.inj hhead
            obtain ⟨hk1, hk2⟩ := Prod.mk.inj hpair
            subst hk1; subst hk2
            exact ⟨seed, hk, hk3⟩
          · exact hwf sr pe mkx htail

/-- C1: under the cache invariant, two sequential calls of
`generatePairwiseKey` with the same algorithm, seed reference, persona and
peer — the second running on the cache state the first produced — yield the
same private key; the derivation depends only on the stored seed and the
labels, with no clock or randomness input. -/
theorem c1_pairwise_deterministic (P : PairwisePrims) (ks : String → Option Bytes)
    (fuel : Nat) (st : MasterKeyCache) (alg : PairwiseAlg)
    (seedRef persona peer : String) (hwf : CacheWF P ks st)
    (k1 : PairwisePrivateKey) (st1 : MasterKeyCache)
    (k2 : PairwisePrivateKey) (st2 : MasterKeyCache)
    (h1 : generatePairwiseKey P ks fuel st alg seedRef persona peer = .ok (k1, st1))
    (h2 : generatePairwiseKey P ks fuel st1 alg seedRef persona peer = .ok (k2, st2)) :
    k2 = k1 := by
  unfold generatePairwiseKey at h1 h2
  cases hac : algCheck alg with
  | error e =>
      rw [hac, err_bind] at h1
      exact Except.noConfusion h1
  | ok u =>
      rw [hac, ok_bind] at h1
      rw [hac, ok_bind] at h2
      cases hm1 : generatePersonaMasterKey P ks st seedRef persona with
      | error e =>
          rw [hm1, err_bind] at h1
          exact Except.noConfusion h1
      | ok pr1 =>
          rw [hm1, ok_bind] at h1
          obtain ⟨⟨seed, hseed, hmk1⟩, hwf1⟩ :=
            personaMK_spec P ks st seedRef persona hwf pr1.1 pr1.2 (by rw [hm1])
          cases hd1 : deriveFromMasterKey P fuel alg pr1.1 peer with
          | error e =>
              rw [hd1, err_bind] at h1
              exact Except.noConfusion h1
          | ok kk =>
              rw [hd1, ok_bind] at h1
              have h1e := Except.ok.inj h1
              have hk1 : k1 = kk := (((Prod.mk.injEq _ _ _ _).mp h1e).1).symm
              have hst1 : st1 = pr1.2 := (((Prod.mk.injEq _ _ _ _).mp h1e).2).symm
              subst hst1
              cases hm2 : generatePersonaMasterKey P ks pr1.2 seedRef persona with
              | error e =>
                  rw [hm2, err_bind] at h2
                  exact Except.noConfusion h2
              | ok pr2 =>
                  rw [hm2, ok_bind] at h2
                  obtain ⟨⟨seed2, hseed2, hmk2⟩, hwf2⟩ :=
                    personaMK_spec P ks pr1.2 seedRef persona hwf1 pr2.1 pr2.2 (by rw [hm2])
                  have hsame : pr2.1 = pr1.1 := by
                    rw [hmk2, hmk1, Option.some.inj (hseed2.symm.trans hseed)]
                  rw [hsame, hd1, ok_bind] at h2
                  have h2e := Except.ok.inj h2
                  have hk2 : k2 = kk := (((Prod.mk.injEq _ _ _ _).mp h2e).1).symm
                  rw [hk1, hk2]

/-- The toy primitives used to exercise C1 concretely. -/
def c1P : PairwisePrims :=
  { kdf := fun k d => [(k.foldl (· + ·) 0 + 2 * d.foldl (· + ·) 0) % 250 + 1],
    ecMul := fun d => [d % 251],
    isPrime := fun n => decide (n % 2 = 1) }

/-- The toy key store used to exercise C1 concretely. -/
def c1ks : String → Option Bytes := fun s => if s = "seed" then some [7] else none

/-- Witness for C1: two concrete sequential derivations succeed and the
theorem forces their keys equal. -/
theorem c1_witness :
    generatePairwiseKey c1P c1ks 4 [] (.ecdsa "secp256k1") "seed" "persona" "peer" =
      .ok (.ec 232 [232], [(("seed", "persona"), [28])]) ∧
    generatePairwiseKey c1P c1ks 4 [(("seed", "persona"), [28])] (.ecdsa "secp256k1")
        "seed" "persona" "peer" =
      .ok (.ec 232 [232], [(("seed", "persona"), [28])]) ∧
    (PairwisePrivateKey.ec 232 [232]) = PairwisePrivateKey.ec 232 [232] :=
  ⟨by decide, by decide,
   c1_pairwise_deterministic c1P c1ks 4 [] (.ecdsa "secp256k1") "seed" "persona" "peer"
     (fun sr pe mk hmem => absurd hmem (List.not_mem_nil _))
     (.ec 232 [232]) [(("seed", "persona"), [28])]
     (.ec 232 [232]) [(("seed", "persona"), [28])]
     (by decide) (by decide)⟩

/-! ## Algorithm naming bridge (`src/libs/plugin/lib/CryptoHelpers.ts`)

`jwaToWebCrypto` (lines 50-86) maps a compact JWA identifier to a structured
WebCrypto descriptor; `webCryptoToJwa` (lines 93-120) maps a descriptor back
to a compact identifier. JavaScript string helpers (`toUpperCase`,
single-occurrence `replace`, the `\d+` regex) are modelled below. The
constant `RSASSA-PKCS1-v1_5` is the value of
`W3cCryptoApiConstants.RsaSsaPkcs1V15` and `AES-GCM` of
`W3cCryptoApiConstants.AesGcm` (standard WebCrypto names, external keys
package). -/

/-- ASCII uppercase of one character, as `String.toUpperCase` does. -/
def asciiUpper (c : Char) : Char :=
  if 97 ≤ c.toNat ∧ c.toNat ≤ 122 then Char.ofNat (c.toNat - 32) else c

/-- Model of JavaScript `toUpperCase` for ASCII strings. -/
def upperStr (s : String) : String := String.mk (s.data.map asciiUpper)

/-- Replace the first occurrence of `pat` with the empty string, the way the
source uses `String.replace(pat, '')`. -/
def replaceFirstChars (pat : List Char) : List Char → List Char
  | [] => []
  | c :: t =>
      match stripPre pat (c :: t) with
      | some rest => rest
      | none => c :: replaceFirstChars pat t

/-- String wrapper for `replaceFirstChars`. -/
def replaceFirst (pat s : String) : String := String.mk (replaceFirstChars pat.data s.data)

/-- Digits of the first `\d+` match. -/
def takeDigits : List Char → List Char
  | [] => []
  | c :: t => if 48 ≤ c.toNat ∧ c.toNat ≤ 57 then c :: takeDigits t else []

/-- Characters of the first run of digits, the `\d+` regex match. -/
def firstDigitRunChars : List Char → List Char
  | [] => []
  | c :: t =>
      if 48 ≤ c.toNat ∧ c.toNat ≤ 57 then c :: takeDigits t else firstDigitRunChars t

/-- Model of `parseInt` on a digit run. -/
def digitsToNat (l : List Char) : Nat := l.foldl (fun acc c => acc * 10 + (c.toNat - 48)) 0

/-- A JavaScript `hash` value: either a plain string or a `{ name }` object. -/
inductive JsHash where
  | str (s : String)
  | obj (name : String)
deriving DecidableEq

/-- The fields of the WebCrypto algorithm descriptors the bridge produces and
consumes. -/
structure WebCryptoAlg where
  name : Option String := none
  hash : Option JsHash := none
  modulusLength : Option Nat := none
  publicExponent : Option Bytes := none
  iv : Option Bytes := none
  additionalData : Option Bytes := none
  tagLength : Option Nat := none
  length : Option Nat := none
  namedCurve : Option String := none
  crv : Option String := none
deriving DecidableEq

/-- Model of `CryptoHelpers.jwaToWebCrypto` (lines 50-86). The optional `iv`
and `aad` arguments are `args[0]` and `args[1]`. -/
def jwaToWebCrypto (jwa : String) (iv aad : Option Bytes) : Except String WebCryptoAlg :=
  let JWA := upperStr jwa
  if JWA = "RS256" ∨ JWA = "RS384" ∨ JWA = "RS512" then
    .ok { name := some "RSASSA-PKCS1-v1_5", modulusLength := some 2048,
          publicExponent := some [1, 0, 1],
          hash := some (.obj ("SHA-" ++ replaceFirst "RS" JWA)) }
  else if JWA = "RSA-OAEP" ∨ JWA = "RSA-OAEP-256" then
    .ok { name := some "RSA-OAEP", hash := some (.str "SHA-256"),
          modulusLength := some 2048, publicExponent := some [1, 0, 1] }
  else if JWA = "A128GCM" ∨ JWA = "A192GCM" ∨ JWA = "A256GCM" then
    .ok { name := some "AES-GCM", iv := iv, additionalData := aad, tagLength := some 128,
          length := some (digitsToNat (firstDigitRunChars JWA.data)) }
  else if JWA = "ES256K" then
    .ok { name := some "ECDSA", namedCurve := some "secp256k1", crv := some "secp256k1",
          hash := some (.obj "SHA-256") }
  else if JWA = "EDDSA" then
    .ok { name := some "EdDSA", namedCurve := some "ed25519", crv := some "ed25519",
          hash := some (.obj "SHA-256") }
  else if JWA = "SHA-256" ∨ JWA = "SHA-384" ∨ JWA = "SHA-512" then
    .ok { hash := some (.obj JWA) }
  else if JWA = "HS256" ∨ JWA = "HS384" ∨ JWA = "HS512" then
    .ok { name := some "HMAC", hash := some (.obj ("SHA-" ++ replaceFirst "HS" JWA)) }
  else .error ("Algorithm " ++ sq ++ JWA ++ sq ++ " is not supported")

/-- Model of `CryptoHelpers.getHash` (lines 150-155): use `hash.name` when
truthy; otherwise fall back to `(hash || 'SHA-256')`, which throws when the
hash is an object with a falsy name. -/
def getHash : JsHash → Except String String
  | .obj name =>
      if name ≠ "" then .ok (replaceFirst "SHA-" (upperStr name))
      else .error "TypeError: hash.toUpperCase is not a function"
  | .str s => .ok (replaceFirst "SHA-" (upperStr (if s ≠ "" then s else "SHA-256")))

/-- Model of `CryptoHelpers.webCryptoToJwa` (lines 93-120). Reading
`algorithm.name.toUpperCase()` throws when `name` is absent; `HMAC` always
maps to `HS256`; `AES-GCM` uses `algorithm.length || 128`; the `SHA-*` rows
call `toUpperCase` on the `hash` value, which throws on a hash object. -/
def webCryptoToJwa (a : WebCryptoAlg) : Except String String :=
  let hash : JsHash :=
    match a.hash with
    | some (.str s) => if s ≠ "" then .str s else
        (match a.name with
         | some n => if n ≠ "" then .str n else .str "SHA-256"
         | none => .str "SHA-256")
    | some (.obj n) => .obj n
    | none =>
        match a.name with
        | some n => if n ≠ "" then .str n else .str "SHA-256"
        | none => .str "SHA-256"
  match a.name with
  | none => .error "TypeError: cannot read name of undefined"
  | some n =>
      match upperStr n with
      | "RSASSA-PKCS1-V1_5" => do
          let h ← getHash hash
          .ok ("RS" ++ h)
      | "ECDSA" => .ok "ES256K"
      | "EDDSA" => .ok "EdDSA"
      | "RSA-OAEP-256" => .ok "RSA-OAEP-256"
      | "RSA-OAEP" => .ok "RSA-OAEP-256"
      | "AES-GCM" =>
          let length := match a.length with
            | some l => if l ≠ 0 then l else 128
            | none => 128
          .ok ("A" ++ toString length ++ "GCM")
      | "HMAC" => .ok "HS256"
      | "SHA-256" =>
          (match hash with
           | .str s => .ok (upperStr s)
           | .obj _ => .error "TypeError: hash.toUpperCase is not a function")
      | "SHA-384" =>
          (match hash with
           | .str s => .ok (upperStr s)
           | .obj _ => .error "TypeError: hash.toUpperCase is not a function")
      | "SHA-512" =>
          (match hash with
           | .str s => .ok (upperStr s)
           | .obj _ => .error "TypeError: hash.toUpperCase is not a function")
      | _ => .error ("Algorithm " ++ sq ++ n ++ sq ++ " is not supported")

/-- The round trip of the naming bridge on a compact identifier. -/
def jwaRoundtrip (id : String) : Except String String :=
  (jwaToWebCrypto id none none).bind webCryptoToJwa

/-- C3 (counterexample): the bridge is not the identity on the full supported
list: `HS384` comes back as `HS256`, `RSA-OAEP` comes back as
`RSA-OAEP-256`, and the `SHA-256` descriptor has no `name` so the reverse
map throws. -/
theorem c3_counterexample :
    jwaRoundtrip "HS384" = .ok "HS256" ∧ ("HS256" : String) ≠ "HS384" ∧
    jwaRoundtrip "RSA-OAEP" = .ok "RSA-OAEP-256" ∧
    ("RSA-OAEP-256" : String) ≠ "RSA-OAEP" ∧
    jwaRoundtrip "SHA-256" = .error "TypeError: cannot read name of undefined" := by decide

/-- C3 (amended): the naming bridge round trip is the identity exactly on
RS256/RS384/RS512, RSA-OAEP-256, A128GCM/A192GCM/A256GCM, ES256K, EdDSA and
HS256; RSA-OAEP normalizes to RSA-OAEP-256, HS384 and HS512 collapse to
HS256, and the SHA-* digest descriptors have no name so the reverse map
fails. -/
theorem c3_amended_bridge_partial_identity :
    (∀ id ∈ (["RS256", "RS384", "RS512", "RSA-OAEP-256", "A128GCM", "A192GCM", "A256GCM",
              "ES256K", "EdDSA", "HS256"] : List String), jwaRoundtrip id = .ok id) ∧
    jwaRoundtrip "RSA-OAEP" = .ok "RSA-OAEP-256" ∧
    jwaRoundtrip "HS384" = .ok "HS256" ∧ jwaRoundtrip "HS512" = .ok "HS256" ∧
    (∀ id ∈ (["SHA-256", "SHA-384", "SHA-512"] : List String),
      jwaRoundtrip id = .error "TypeError: cannot read name of undefined") := by decide

/-- Witness for C3: one identifier of the amended list concretely survives
the round trip. -/
theorem c3_witness :
    ("RS256" : String) ∈ (["RS256", "RS384", "RS512", "RSA-OAEP-256", "A128GCM", "A192GCM",
        "A256GCM", "ES256K", "EdDSA", "HS256"] : List String) ∧
    jwaRoundtrip "RS256" = .ok "RS256" :=
  ⟨by decide, c3_amended_bridge_partial_identity.1 "RS256" (by decide)⟩

/-- C9: for each AES-GCM identifier the descriptor carries name `AES-GCM`,
the given iv and additionalData, a fixed 128-bit tag length, and the key
length named by the identifier. -/
theorem c9_aes_gcm_descriptor (iv aad : Bytes) :
    jwaToWebCrypto "A128GCM" (some iv) (some aad) =
      .ok { name := some "AES-GCM", iv := some iv, additionalData := some aad,
            tagLength := some 128, length := some 128 } ∧
    jwaToWebCrypto "A192GCM" (some iv) (some aad) =
      .ok { name := some "AES-GCM", iv := some iv, additionalData := some aad,
            tagLength := some 128, length := some 192 } ∧
    jwaToWebCrypto "A256GCM" (some iv) (some aad) =
      .ok { name := some "AES-GCM", iv := some iv, additionalData := some aad,
            tagLength := some 128, length := some 256 } :=
  ⟨rfl, rfl, rfl⟩

end VcSdk
